import Mathlib

/-!
mod-world-chat: a shallow embedding of `src/WorldChat.cpp`.

The module keeps two pieces of process-wide state: the configuration
`WC_Config` and the timer map `g_loginAnnounceRemainMs`.  Both are passed
explicitly here.  Calls into the host (the log sink and the system-message
sender) are recorded as a list of `Effect`s in program order.

* `std::string` is `String`; `std::isspace` / `std::toupper` are taken in the
  "C" locale.
* `Player*`, `Channel*`, `WorldSession*` are `Option`s (`none` is `nullptr`).
* `std::unordered_map<ObjectGuid, uint32>` is an association list; the order
  of the list stands for the (unspecified) iteration order of the map.
* `uint32` values are `Nat`s and the one arithmetic operation on them
  (`remain -= diff`) is taken modulo `2 ^ 32`.
-/

namespace WorldChat

/-! ## Host types -/

/-- The modulus of `uint32` arithmetic. -/
def U32 : Nat := 4294967296

/-- Host type `ObjectGuid`, an opaque unique key. -/
abbrev ObjectGuid := Nat

/-- A `WorldSession*` that is not null, as seen from a `Player`. -/
abbrev SessionId := Nat

/-- Host enum value `TEAM_ALLIANCE` (`SharedDefines.h`). -/
def TEAM_ALLIANCE : Nat := 0

/-- Host enum value `TEAM_HORDE` (`SharedDefines.h`). -/
def TEAM_HORDE : Nat := 1

/-- Host enum value `CLASS_WARRIOR`. -/
def CLASS_WARRIOR : Nat := 1
/-- Host enum value `CLASS_PALADIN`. -/
def CLASS_PALADIN : Nat := 2
/-- Host enum value `CLASS_HUNTER`. -/
def CLASS_HUNTER : Nat := 3
/-- Host enum value `CLASS_ROGUE`. -/
def CLASS_ROGUE : Nat := 4
/-- Host enum value `CLASS_PRIEST`. -/
def CLASS_PRIEST : Nat := 5
/-- Host enum value `CLASS_DEATH_KNIGHT`. -/
def CLASS_DEATH_KNIGHT : Nat := 6
/-- Host enum value `CLASS_SHAMAN`. -/
def CLASS_SHAMAN : Nat := 7
/-- Host enum value `CLASS_MAGE`. -/
def CLASS_MAGE : Nat := 8
/-- Host enum value `CLASS_WARLOCK`. -/
def CLASS_WARLOCK : Nat := 9
/-- Host enum value `CLASS_DRUID`. -/
def CLASS_DRUID : Nat := 11

/-- Host constant `LANG_ADDON`, the language tag of addon traffic. -/
def LANG_ADDON : Nat := 4294967295

/-- What the module observes of a host `Player`: the results of the getters
it calls. -/
structure Player where
  GetGUID : ObjectGuid
  GetName : String
  GetTeamId : Nat
  getClass : Nat
  GetSession : Option SessionId
  IsInWorld : Bool
deriving DecidableEq

/-- Host `WorldSession` as seen from a command handler. -/
structure WorldSession where
  id : SessionId
  GetPlayer : Option Player
deriving DecidableEq

/-- Host `ChatHandler` handed to a command. -/
structure ChatHandler where
  GetSession : Option WorldSession
deriving DecidableEq

/-- Host `Channel`; only its name is read. -/
structure Channel where
  GetName : String
deriving DecidableEq

/-- Snapshot of `ObjectAccessor::GetPlayers()`: a map from guid to
`Player*`, in iteration order. -/
abbrev PlayerMap := List (ObjectGuid × Option Player)

/-- Calls into the host, in program order. -/
inductive Effect where
  /-- `LOG_INFO("server", "{}", line)`. -/
  | LOG_INFO (line : String)
  /-- `ChatHandler(recv->GetSession()).SendSysMessage(text)`. -/
  | SendSysMessage (recv : Player) (text : String)
  /-- `handler->PSendSysMessage(text)` on the handler of a command. -/
  | PSendSysMessage (handler : ChatHandler) (text : String)
deriving DecidableEq

/-! ## Configuration -/

/-- The struct `WCConfig`. -/
structure WCConfig where
  Enabled : Bool
  ChannelName : String
  CrossFactions : Bool
  Announce : Bool
deriving DecidableEq

/-- The initial value of `WC_Config` (the member initialisers of the struct). -/
def WC_Config : WCConfig :=
  ⟨true, "Global", true, true⟩

/-! ## Filter and rendering -/

/-- `SameTeamOrCross(from, to)`. -/
def SameTeamOrCross (cfg : WCConfig) (pFrom pTo : Option Player) : Bool :=
  match pFrom, pTo with
  | some f, some t =>
    if cfg.CrossFactions then true
    else decide (f.GetTeamId = t.GetTeamId)
  | _, _ => false

/-- `FactionTag(p)`. -/
def FactionTag (p : Player) : String :=
  if p.GetTeamId = TEAM_ALLIANCE then "|cff3399FF[A]|r " else "|cffff0000[H]|r "

/-- `FactionTagPlain(p)`. -/
def FactionTagPlain (p : Player) : String :=
  if p.GetTeamId = TEAM_ALLIANCE then "[A] " else "[H] "

/-- `FactionColor(p)`. -/
def FactionColor (p : Player) : String :=
  if p.GetTeamId = TEAM_ALLIANCE then "|cff3399FF" else "|cffff0000"

/-- `ClassColor(p)`. -/
def ClassColor (p : Player) : String :=
  if p.getClass = CLASS_WARRIOR then "|cffC79C6E"
  else if p.getClass = CLASS_PALADIN then "|cffF58CBA"
  else if p.getClass = CLASS_HUNTER then "|cffABD473"
  else if p.getClass = CLASS_ROGUE then "|cffFFF569"
  else if p.getClass = CLASS_PRIEST then "|cffFFFFFF"
  else if p.getClass = CLASS_DEATH_KNIGHT then "|cffC41E3A"
  else if p.getClass = CLASS_SHAMAN then "|cff0070DE"
  else if p.getClass = CLASS_MAGE then "|cff69CCF0"
  else if p.getClass = CLASS_WARLOCK then "|cff9482C9"
  else if p.getClass = CLASS_DRUID then "|cffFF7D0A"
  else "|cffffffff"

/-- The local `coloredLine` of `SendWorldMessage`. -/
def coloredLine (cfg : WCConfig) (sender : Player) (text : String) : String :=
  "|cffffd000[" ++ cfg.ChannelName ++ "]|r "
    ++ FactionTag sender
    ++ ClassColor sender ++ sender.GetName ++ "|r: "
    ++ FactionColor sender ++ text ++ "|r"

/-- The local `plainLine` of `SendWorldMessage`. -/
def plainLine (cfg : WCConfig) (sender : Player) (text : String) : String :=
  "[" ++ cfg.ChannelName ++ "] "
    ++ FactionTagPlain sender
    ++ sender.GetName ++ ": "
    ++ text

/-- The `for` loop of `SendWorldMessage` over the directory snapshot. -/
def deliverLoop (cfg : WCConfig) (sender : Player) (line : String) :
    PlayerMap → List Effect
  | [] => []
  | pair :: rest =>
    match pair.2 with
    | none => deliverLoop cfg sender line rest
    | some recv =>
      if !recv.IsInWorld then deliverLoop cfg sender line rest
      else if !SameTeamOrCross cfg (some sender) (some recv) then
        deliverLoop cfg sender line rest
      else Effect.SendSysMessage recv line :: deliverLoop cfg sender line rest

/-- `SendWorldMessage(sender, text)`, with the configuration and the result of
`ObjectAccessor::GetPlayers()` as arguments. -/
def SendWorldMessage (cfg : WCConfig) (players : PlayerMap)
    (sender : Option Player) (text : String) : List Effect :=
  if !cfg.Enabled then []
  else
    match sender with
    | none => []
    | some s =>
      if s.GetSession.isNone then []
      else
        Effect.LOG_INFO (plainLine cfg s text)
          :: deliverLoop cfg s (coloredLine cfg s text) players

/-! ## Observations on effect traces -/

/-- The log lines written, in order. -/
def logWrites (effs : List Effect) : List String :=
  effs.filterMap fun e =>
    match e with
    | Effect.LOG_INFO l => some l
    | _ => none

/-- The deliveries made, in order: recipient and text. -/
def deliveries (effs : List Effect) : List (Player × String) :=
  effs.filterMap fun e =>
    match e with
    | Effect.SendSysMessage p t => some (p, t)
    | _ => none

/-- The filter of the broadcast on one directory entry: non-null, in world,
and accepted by `SameTeamOrCross`. -/
def eligible (cfg : WCConfig) (sender : Player) (pair : ObjectGuid × Option Player) : Bool :=
  match pair.2 with
  | none => false
  | some recv => recv.IsInWorld && SameTeamOrCross cfg (some sender) (some recv)

/-- The recipients a broadcast of `sender` must reach: the eligible entries
of the snapshot, one per entry. -/
def recipients (cfg : WCConfig) (sender : Player) (players : PlayerMap) : List Player :=
  (players.filter (eligible cfg sender)).filterMap Prod.snd

/-! ## Delayed login announcement -/

/-- The global `g_loginAnnounceRemainMs`: guid and remaining milliseconds of
every armed reminder, in the iteration order of the map. -/
abbrev TimerMap := List (ObjectGuid × Nat)

/-- The keys of a timer map. -/
def keys (m : TimerMap) : List ObjectGuid :=
  m.map Prod.fst

/-- `m.find(k)`: the value stored under `k`, if any. -/
def lookup (k : ObjectGuid) : TimerMap → Option Nat
  | [] => none
  | e :: rest => if e.1 = k then some e.2 else lookup k rest

/-- `m[k] = v`: overwrite the entry of `k`, or create it. -/
def assign (k : ObjectGuid) (v : Nat) : TimerMap → TimerMap
  | [] => [(k, v)]
  | e :: rest => if e.1 = k then (e.1, v) :: rest else e :: assign k v rest

/-- `m.erase(k)`: remove the entry of `k`, if there is one. -/
def erase (k : ObjectGuid) : TimerMap → TimerMap
  | [] => []
  | e :: rest => if e.1 = k then rest else e :: erase k rest

/-- What the type `std::unordered_map<ObjectGuid, uint32>` guarantees of a
value: one entry per key, every value a `uint32`. -/
def WellFormed (m : TimerMap) : Prop :=
  (keys m).Nodup ∧ ∀ e ∈ m, e.2 < U32

instance (m : TimerMap) : Decidable (WellFormed m) := by
  unfold WellFormed; infer_instance

/-- The text of the reminder sent by `OnUpdate`. -/
def REMINDER : String :=
  "[Global Chat] Type \"/join Global\" to talk to all players on the server regardless of faction."

/-- The delay armed by `OnLogin`, in milliseconds. -/
def ANNOUNCE_DELAY : Nat := 10000

/-- The `for` loop of `WorldChat_AnnounceDelay::OnUpdate`, from the iterator
position whose remaining entries are the argument: the entries kept and the
calls made.  `FindPlayer` is the host function `ObjectAccessor::FindPlayer`. -/
def updateLoop (FindPlayer : ObjectGuid → Option Player) (diff : Nat) :
    TimerMap → TimerMap × List Effect
  | [] => ([], [])
  | e :: rest =>
    let guid := e.1
    let remain := e.2
    let r := updateLoop FindPlayer diff rest
    if remain ≤ diff then
      match FindPlayer guid with
      | some p => (r.1, Effect.SendSysMessage p REMINDER :: r.2)
      | none => (r.1, r.2)
    else
      ((guid, (remain + U32 - diff) % U32) :: r.1, r.2)

/-- `WorldChat_AnnounceDelay::OnUpdate(diff)`. -/
def OnUpdate (FindPlayer : ObjectGuid → Option Player) (diff : Nat)
    (m : TimerMap) : TimerMap × List Effect :=
  if m.isEmpty then (m, [])
  else updateLoop FindPlayer diff m

/-- `WorldChat_Player::OnLogin(player)`. -/
def OnLogin (player : Option Player) (m : TimerMap) : TimerMap :=
  match player with
  | none => m
  | some p => assign p.GetGUID ANNOUNCE_DELAY m

/-- `WorldChat_Player::OnLogout(player)`. -/
def OnLogout (player : Option Player) (m : TimerMap) : TimerMap :=
  match player with
  | none => m
  | some p => erase p.GetGUID m

/-- The host events that touch the timer map. -/
inductive Event where
  | login (player : Option Player)
  | logout (player : Option Player)
  | update (FindPlayer : ObjectGuid → Option Player) (diff : Nat)

/-- One event: the new timer map and the calls made. -/
def step (m : TimerMap) : Event → TimerMap × List Effect
  | Event.login p => (OnLogin p m, [])
  | Event.logout p => (OnLogout p m, [])
  | Event.update f d => OnUpdate f d m

/-- A sequence of events, oldest first: the final timer map and all calls
made, in order. -/
def run (m : TimerMap) : List Event → TimerMap × List Effect
  | [] => (m, [])
  | ev :: rest =>
    let r := step m ev
    let r2 := run r.1 rest
    (r2.1, r.2 ++ r2.2)

/-- Number of system messages in a trace whose recipient has guid `g`. -/
def notifiedCount (g : ObjectGuid) (effs : List Effect) : Nat :=
  effs.countP fun e =>
    match e with
    | Effect.SendSysMessage p _ => decide (p.GetGUID = g)
    | _ => false

/-- Total of the elapsed values of the `update` events of a sequence. -/
def elapsed : List Event → Nat
  | [] => 0
  | Event.update _ d :: rest => d + elapsed rest
  | _ :: rest => elapsed rest

/-- The event is neither a login nor a logout of guid `g`. -/
def Event.quietFor (g : ObjectGuid) : Event → Prop
  | Event.login (some q) => q.GetGUID ≠ g
  | Event.logout (some q) => q.GetGUID ≠ g
  | _ => True

/-- The event is not a login of guid `g`. -/
def Event.noLoginOf (g : ObjectGuid) : Event → Prop
  | Event.login (some q) => q.GetGUID ≠ g
  | _ => True

/-- Contract of the host function `ObjectAccessor::FindPlayer`: the player
found for a guid has that guid. -/
def FindsByGuid (FindPlayer : ObjectGuid → Option Player) : Prop :=
  ∀ g p, FindPlayer g = some p → p.GetGUID = g

/-- Every `update` event of the sequence uses a directory that honours
`FindsByGuid`. -/
def Event.hostOk : Event → Prop
  | Event.update f _ => FindsByGuid f
  | _ => True

/-- The directory of the event finds guid `g` (for `update` events). -/
def Event.finds (g : ObjectGuid) : Event → Prop
  | Event.update f _ => (f g).isSome
  | _ => True

/-! ## Triggers -/

/-- `std::isspace` in the "C" locale: the space and the control characters
`\t`, `\n`, `\v`, `\f`, `\r` (codes 9 to 13). -/
def isspace (c : Char) : Bool :=
  c.toNat = 32 || (9 ≤ c.toNat && c.toNat ≤ 13)

/-- The `while` loop of `HandleWorldChatCommand`: erase the front character
as long as there is one and it is whitespace. -/
def trimLoop : List Char → List Char
  | [] => []
  | c :: cs => if isspace c then trimLoop cs else c :: cs

/-- `ToUpper(s)`: `std::toupper` on every character. -/
def ToUpper (s : String) : String :=
  String.mk (s.data.map Char.toUpper)

/-- `world_chat_commands::HandleWorldChatCommand(handler, msgTail)`: the
return value and the calls made. -/
def HandleWorldChatCommand (cfg : WCConfig) (players : PlayerMap)
    (handler : ChatHandler) (msgTail : String) : Bool × List Effect :=
  if !cfg.Enabled then (true, [])
  else
    let sender : Option Player :=
      match handler.GetSession with
      | some session => session.GetPlayer
      | none => none
    match sender with
    | none => (true, [])
    | some s =>
      let msg := String.mk (trimLoop msgTail.data)
      if msg.data.isEmpty then
        (true, [Effect.PSendSysMessage handler "Usage: .chat <message>"])
      else
        (true, SendWorldMessage cfg players (some s) msg)

/-- `WorldChat_Player::OnPlayerChat(player, type, lang, msg, channel)`: the
value of the buffer `msg` on return and the calls made. -/
def OnPlayerChat (cfg : WCConfig) (players : PlayerMap)
    (player : Option Player) (_type lang : Nat) (msg : String)
    (channel : Option Channel) : String × List Effect :=
  if !cfg.Enabled then (msg, [])
  else
    match player, channel with
    | some p, some ch =>
      if lang = LANG_ADDON then (msg, [])
      else if cfg.ChannelName.data.isEmpty then (msg, [])
      else if ToUpper ch.GetName ≠ ToUpper cfg.ChannelName then (msg, [])
      else (String.mk [], SendWorldMessage cfg players (some p) msg)
    | _, _ => (msg, [])

/-! ## The words of the specification -/

/-- The specification's "trimmed": leading and trailing whitespace removed. -/
def specTrim (s : String) : String :=
  String.mk ((s.data.dropWhile isspace).reverse.dropWhile isspace).reverse

/-- Leading whitespace removed: the suffix left after the longest prefix of
whitespace characters. -/
def specTrimLeft (s : String) : String :=
  String.mk (s.data.dropWhile isspace)

/-- The replies made through the handler of a command, in order. -/
def usageReplies (effs : List Effect) : List (ChatHandler × String) :=
  effs.filterMap fun e =>
    match e with
    | Effect.PSendSysMessage h t => some (h, t)
    | _ => none

/-- The colour-markup character of the client. -/
def pipe : Char := '|'

/-! ## The module as a whole -/

/-- The process-wide state of the module: the globals `WC_Config` and
`g_loginAnnounceRemainMs`. -/
structure ModuleState where
  config : WCConfig
  timers : TimerMap

/-- `WorldChat_Config::OnAfterConfigLoad`: the four fields of `WC_Config` are
replaced by the option values `sConfigMgr->GetOption` returns. -/
def OnAfterConfigLoad (Enable : Bool) (ChannelName : String)
    (CrossFactions Announce : Bool) (_old : WCConfig) : WCConfig :=
  ⟨Enable, ChannelName, CrossFactions, Announce⟩

/-- Host events on the module state: the timer events and a configuration
(re)load with the option values read. -/
inductive HostEvent where
  | timer (ev : Event)
  | configLoad (Enable : Bool) (ChannelName : String) (CrossFactions Announce : Bool)

/-- One host event on the module state.  `OnLogin`, `OnLogout` and `OnUpdate`
read and write `g_loginAnnounceRemainMs` only; `OnAfterConfigLoad` writes
`WC_Config` only. -/
def moduleStep (s : ModuleState) : HostEvent → ModuleState × List Effect
  | HostEvent.timer ev => (⟨s.config, (step s.timers ev).1⟩, (step s.timers ev).2)
  | HostEvent.configLoad en name cross ann =>
    (⟨OnAfterConfigLoad en name cross ann s.config, s.timers⟩, [])

/-- A sequence of host events, oldest first. -/
def moduleRun (s : ModuleState) : List HostEvent → ModuleState × List Effect
  | [] => (s, [])
  | ev :: rest =>
    let r := moduleStep s ev
    let r2 := moduleRun r.1 rest
    (r2.1, r.2 ++ r2.2)

/-- The timer events of a sequence of host events. -/
def timerEvents : List HostEvent → List Event
  | [] => []
  | HostEvent.timer ev :: rest => ev :: timerEvents rest
  | HostEvent.configLoad _ _ _ _ :: rest => timerEvents rest

/-- A timer map reached from the empty one by logins, logouts and updates. -/
def Reachable (m : TimerMap) : Prop :=
  ∃ evs : List Event, (run [] evs).1 = m

/-- Every remaining value lies between 1 and the armed delay. -/
def Bounded (m : TimerMap) : Prop :=
  ∀ e ∈ m, 1 ≤ e.2 ∧ e.2 ≤ ANNOUNCE_DELAY

/-- The sum of two `uint32` values, as the caller of `OnUpdate` computes it. -/
def u32add (a b : Nat) : Nat :=
  (a + b) % U32

/-! ## Sample data -/

/-- An Alliance warrior, in world, with a session. -/
def alice : Player := ⟨1, "Alice", TEAM_ALLIANCE, CLASS_WARRIOR, some 101, true⟩

/-- A Horde mage, in world, with a session. -/
def bob : Player := ⟨2, "Bob", TEAM_HORDE, CLASS_MAGE, some 102, true⟩

/-- An Alliance druid with a session who is not in world. -/
def carol : Player := ⟨3, "Carol", TEAM_ALLIANCE, CLASS_DRUID, some 103, false⟩

/-- A directory snapshot with a null entry. -/
def sampleDirectory : PlayerMap :=
  [(1, some alice), (2, some bob), (3, some carol), (4, none)]

/-- A Horde rogue, in world, whose session is gone. -/
def dave : Player := ⟨5, "Dave", TEAM_HORDE, CLASS_ROGUE, none, true⟩

/-- The default configuration with the module switched off. -/
def disabledConfig : WCConfig := ⟨false, "Global", true, true⟩

/-- The configuration with faction separation. -/
def sameFactionConfig : WCConfig := ⟨true, "Global", false, true⟩

/-- A directory that finds `alice` and `bob` by guid. -/
def sampleFind (g : ObjectGuid) : Option Player :=
  if g = 1 then some alice else if g = 2 then some bob else none

/-- The command handler of `alice`. -/
def aliceHandler : ChatHandler := ⟨some ⟨101, some alice⟩⟩

/-! ## Broadcast: filter and fan-out -/

/-- The deliveries of the loop are the eligible entries of the snapshot, in
order, each with the line. -/
theorem deliveries_deliverLoop (cfg : WCConfig) (s : Player) (line : String)
    (players : PlayerMap) :
    deliveries (deliverLoop cfg s line players)
      = (recipients cfg s players).map fun r => (r, line) := by
  induction players with
  | nil => rfl
  | cons pair rest ih =>
    obtain ⟨g, r⟩ := pair
    cases r with
    | none => simpa [deliverLoop, recipients, eligible] using ih
    | some recv =>
      by_cases hw : recv.IsInWorld = true
      · by_cases hs : SameTeamOrCross cfg (some s) (some recv) = true
        · simp only [recipients] at ih
          simp [deliverLoop, recipients, eligible, hw, hs, deliveries, List.filterMap_cons]
          simpa [deliveries] using ih
        · simp only [recipients] at ih
          simp only [Bool.not_eq_true] at hs
          simpa [deliverLoop, recipients, eligible, hw, hs] using ih
      · simp only [recipients] at ih
        simp only [Bool.not_eq_true] at hw
        simpa [deliverLoop, recipients, eligible, hw] using ih

/-- The loop writes no log line. -/
theorem logWrites_deliverLoop (cfg : WCConfig) (s : Player) (line : String)
    (players : PlayerMap) :
    logWrites (deliverLoop cfg s line players) = [] := by
  induction players with
  | nil => rfl
  | cons pair rest ih =>
    obtain ⟨g, r⟩ := pair
    cases r with
    | none => simpa [deliverLoop] using ih
    | some recv =>
      by_cases hw : recv.IsInWorld = true <;>
        by_cases hs : SameTeamOrCross cfg (some s) (some recv) = true <;>
        simp [deliverLoop, hw, hs, logWrites, List.filterMap_cons] <;>
        simpa [logWrites] using ih

/-- One recipient per eligible entry. -/
theorem length_recipients (cfg : WCConfig) (s : Player) (players : PlayerMap) :
    (recipients cfg s players).length = players.countP (eligible cfg s) := by
  induction players with
  | nil => rfl
  | cons pair rest ih =>
    obtain ⟨g, r⟩ := pair
    cases r with
    | none => simpa [recipients, eligible] using ih
    | some recv =>
      by_cases h : eligible cfg s (g, some recv) = true
      · simp only [recipients] at ih
        simp [recipients, List.filter_cons, List.countP_cons, h, ih]
      · simp only [recipients] at ih
        simp [recipients, List.filter_cons, List.countP_cons, h, ih]

theorem send_effects (cfg : WCConfig) (players : PlayerMap) (s : Player) (text : String)
    (hen : cfg.Enabled = true) (hs : s.GetSession ≠ none) :
    SendWorldMessage cfg players (some s) text
      = Effect.LOG_INFO (plainLine cfg s text)
          :: deliverLoop cfg s (coloredLine cfg s text) players := by
  have hsess : s.GetSession.isNone = false := by
    cases h : s.GetSession with
    | none => exact absurd h hs
    | some _ => rfl
  simp [SendWorldMessage, hen, hsess]

theorem logWrites_send (cfg : WCConfig) (players : PlayerMap) (s : Player) (text : String)
    (hen : cfg.Enabled = true) (hs : s.GetSession ≠ none) :
    logWrites (SendWorldMessage cfg players (some s) text) = [plainLine cfg s text] := by
  rw [send_effects cfg players s text hen hs]
  have := logWrites_deliverLoop cfg s (coloredLine cfg s text) players
  simp only [logWrites] at this
  simp [logWrites, List.filterMap_cons, this]

theorem deliveries_send (cfg : WCConfig) (players : PlayerMap) (s : Player) (text : String)
    (hen : cfg.Enabled = true) (hs : s.GetSession ≠ none) :
    deliveries (SendWorldMessage cfg players (some s) text)
      = (recipients cfg s players).map (fun r => (r, coloredLine cfg s text)) := by
  rw [send_effects cfg players s text hen hs]
  have := deliveries_deliverLoop cfg s (coloredLine cfg s text) players
  simp only [deliveries] at this
  simp [deliveries, List.filterMap_cons, this]

theorem length_deliverLoop (cfg : WCConfig) (s : Player) (line : String)
    (players : PlayerMap) :
    (deliverLoop cfg s line players).length = players.countP (eligible cfg s) := by
  induction players with
  | nil => rfl
  | cons pair rest ih =>
    obtain ⟨g, r⟩ := pair
    cases r with
    | none => simpa [deliverLoop, eligible, List.countP_cons] using ih
    | some recv =>
      by_cases hw : recv.IsInWorld = true <;>
        by_cases hc : SameTeamOrCross cfg (some s) (some recv) = true <;>
        simp [deliverLoop, eligible, List.countP_cons, hw, hc, ih]

/-- C1: with an enabled config and a sender that has a session,
`SendWorldMessage` writes exactly one log line, the plain line, and delivers
the display line once to every directory entry that is non-null, in world and
accepted by `SameTeamOrCross`, in snapshot order, and to no other entry; the
number of deliveries is the number K of eligible entries, whatever the size of
the snapshot. -/
theorem C1_send_fanout (cfg : WCConfig) (players : PlayerMap) (s : Player)
    (text : String) (hen : cfg.Enabled = true) (hs : s.GetSession ≠ none) :
    logWrites (SendWorldMessage cfg players (some s) text) = [plainLine cfg s text]
    ∧ deliveries (SendWorldMessage cfg players (some s) text)
        = (recipients cfg s players).map (fun r => (r, coloredLine cfg s text))
    ∧ (deliveries (SendWorldMessage cfg players (some s) text)).length
        = players.countP (eligible cfg s)
    ∧ (logWrites (SendWorldMessage cfg players (some s) text)).length = 1
    ∧ (SendWorldMessage cfg players (some s) text).length
        = 1 + players.countP (eligible cfg s) := by
  have hlog := logWrites_send cfg players s text hen hs
  have hdel := deliveries_send cfg players s text hen hs
  refine ⟨hlog, hdel, ?_, ?_, ?_⟩
  · rw [hdel, List.length_map, length_recipients]
  · rw [hlog]; rfl
  · rw [send_effects cfg players s text hen hs, List.length_cons, length_deliverLoop,
      Nat.add_comm]

/-- C1 at a snapshot of four entries, two of them eligible. -/
theorem C1_send_fanout_witness :
    WC_Config.Enabled = true ∧ bob.GetSession ≠ none
    ∧ sampleDirectory.countP (eligible WC_Config bob) = 2
    ∧ (deliveries (SendWorldMessage WC_Config sampleDirectory (some bob) "hello")).length = 2
    ∧ logWrites (SendWorldMessage WC_Config sampleDirectory (some bob) "hello")
        = ["[Global] [H] Bob: hello"] :=
  ⟨by decide, by decide, by decide,
    ((C1_send_fanout WC_Config sampleDirectory bob "hello" (by decide) (by decide)).2.2.1).trans
      (by decide),
    ((C1_send_fanout WC_Config sampleDirectory bob "hello" (by decide) (by decide)).1).trans
      (by decide)⟩

/-- C4: without cross-faction chat, two non-null players pass the filter
exactly when their team ids are equal. -/
theorem C4_same_team_iff (cfg : WCConfig) (pFrom pTo : Player)
    (hcross : cfg.CrossFactions = false) :
    SameTeamOrCross cfg (some pFrom) (some pTo) = true
      ↔ pFrom.GetTeamId = pTo.GetTeamId := by
  simp [SameTeamOrCross, hcross]

/-- C4 on two players of different teams. -/
theorem C4_same_team_iff_witness :
    sameFactionConfig.CrossFactions = false
    ∧ (SameTeamOrCross sameFactionConfig (some alice) (some bob) = true
        ↔ alice.GetTeamId = bob.GetTeamId) :=
  ⟨by decide, C4_same_team_iff sameFactionConfig alice bob (by decide)⟩

/-- C5: with cross-faction chat, every pair of non-null players passes the
filter, whatever the two team ids are. -/
theorem C5_cross_always (cfg : WCConfig) (pFrom pTo : Player)
    (hcross : cfg.CrossFactions = true) :
    SameTeamOrCross cfg (some pFrom) (some pTo) = true := by
  simp [SameTeamOrCross, hcross]

/-- C5 on two players of different teams. -/
theorem C5_cross_always_witness :
    WC_Config.CrossFactions = true ∧ alice.GetTeamId ≠ bob.GetTeamId
    ∧ SameTeamOrCross WC_Config (some alice) (some bob) = true :=
  ⟨by decide, by decide, C5_cross_always WC_Config alice bob (by decide)⟩

/-- C6: `SendWorldMessage` makes no call at all, so no delivery and no log
write, when the config is disabled, or the sender is null, or the sender has
no session. -/
theorem C6_send_guard (cfg : WCConfig) (players : PlayerMap)
    (sender : Option Player) (text : String)
    (h : cfg.Enabled = false ∨ sender = none
          ∨ ∃ s, sender = some s ∧ s.GetSession = none) :
    SendWorldMessage cfg players sender text = []
    ∧ deliveries (SendWorldMessage cfg players sender text) = []
    ∧ logWrites (SendWorldMessage cfg players sender text) = [] := by
  have hnil : SendWorldMessage cfg players sender text = [] := by
    rcases h with h | h | ⟨s, h1, h2⟩
    · simp [SendWorldMessage, h]
    · subst h
      cases hen : cfg.Enabled <;> simp [SendWorldMessage, hen]
    · subst h1
      cases hen : cfg.Enabled <;> simp [SendWorldMessage, hen, h2]
  rw [hnil]
  exact ⟨rfl, rfl, rfl⟩

/-- C6 with a disabled config, and with a sender that has no session. -/
theorem C6_send_guard_witness :
    disabledConfig.Enabled = false
    ∧ SendWorldMessage disabledConfig sampleDirectory (some bob) "hello" = []
    ∧ dave.GetSession = none
    ∧ SendWorldMessage WC_Config sampleDirectory (some dave) "hello" = [] :=
  ⟨rfl,
    (C6_send_guard disabledConfig sampleDirectory (some bob) "hello" (Or.inl rfl)).1,
    rfl,
    (C6_send_guard WC_Config sampleDirectory (some dave) "hello"
      (Or.inr (Or.inr ⟨dave, rfl, rfl⟩))).1⟩

/-! ## Timer map: lookups, keys and the three operations -/

theorem lookup_eq_none_iff (k : ObjectGuid) (m : TimerMap) :
    lookup k m = none ↔ k ∉ keys m := by
  induction m with
  | nil => simp [lookup, keys]
  | cons e rest ih =>
    by_cases h : e.1 = k
    · simp [lookup, keys, h]
    · have hk : ¬ k = e.1 := fun h2 => h h2.symm
      simp only [keys] at ih
      simp [lookup, keys, h, hk, ih]

theorem lookup_mem (k v : Nat) (m : TimerMap) (h : lookup k m = some v) :
    (k, v) ∈ m := by
  induction m with
  | nil => simp [lookup] at h
  | cons e rest ih =>
    by_cases hk : e.1 = k
    · simp [lookup, hk] at h
      obtain ⟨a, b⟩ := e
      simp only at hk h
      subst hk; subst h
      exact List.mem_cons_self _ _
    · simp [lookup, hk] at h
      exact List.mem_cons_of_mem _ (ih h)

theorem lookup_assign (k v k2 : Nat) (m : TimerMap) :
    lookup k2 (assign k v m) = if k2 = k then some v else lookup k2 m := by
  induction m with
  | nil =>
    by_cases h : k2 = k
    · simp [assign, lookup, h]
    · have h2 : ¬ k = k2 := fun e => h e.symm
      simp [assign, lookup, h, h2]
  | cons e rest ih =>
    by_cases he : e.1 = k
    · by_cases h : k2 = k
      · simp [assign, lookup, he, h]
      · have h2 : ¬ k = k2 := fun e => h e.symm
        simp [assign, lookup, he, h, h2]
    · by_cases h : e.1 = k2
      · have h3 : ¬ k2 = k := fun e2 => he (h.trans e2)
        simp [assign, lookup, he, h, h3]
      · simp [assign, lookup, he, h, ih]

theorem keys_assign (k v : Nat) (m : TimerMap) :
    keys (assign k v m) = if k ∈ keys m then keys m else keys m ++ [k] := by
  induction m with
  | nil => simp [assign, keys]
  | cons e rest ih =>
    by_cases he : e.1 = k
    · simp [assign, keys, he]
    · have h2 : ¬ k = e.1 := fun e2 => he e2.symm
      simp only [keys] at ih
      by_cases hm : k ∈ List.map Prod.fst rest
      · simp [assign, keys, he, h2, hm, ih]
      · simp [assign, keys, he, h2, hm, ih]

theorem nodup_keys_assign (k v : Nat) (m : TimerMap) (h : (keys m).Nodup) :
    (keys (assign k v m)).Nodup := by
  rw [keys_assign]
  by_cases hm : k ∈ keys m
  · simp [hm, h]
  · simp only [hm, if_false]
    rw [List.nodup_append]
    refine ⟨h, List.nodup_singleton k, ?_⟩
    intro a ha hb
    simp only [List.mem_singleton] at hb
    exact hm (hb ▸ ha)

theorem keys_erase_sublist (k : Nat) (m : TimerMap) :
    (keys (erase k m)).Sublist (keys m) := by
  induction m with
  | nil => simp [erase, keys]
  | cons e rest ih =>
    by_cases he : e.1 = k
    · simp only [erase, he, if_true, keys, List.map_cons]
      exact List.sublist_cons_self _ _
    · simp only [erase, he, if_false, keys, List.map_cons]
      exact List.Sublist.cons₂ _ ih

theorem lookup_erase_ne (k k2 : Nat) (m : TimerMap) (h : k2 ≠ k) :
    lookup k2 (erase k m) = lookup k2 m := by
  induction m with
  | nil => rfl
  | cons e rest ih =>
    obtain ⟨a, b⟩ := e
    by_cases he : a = k
    · subst he
      have h3 : ¬ a = k2 := fun e2 => h e2.symm
      simp [erase, lookup, h3]
    · by_cases h4 : a = k2
      · subst h4
        simp [erase, lookup, he]
      · simp [erase, lookup, he, h4, ih]

theorem lookup_erase_self (k : Nat) (m : TimerMap) (h : (keys m).Nodup) :
    lookup k (erase k m) = none := by
  induction m with
  | nil => rfl
  | cons e rest ih =>
    simp only [keys, List.map_cons, List.nodup_cons] at h
    by_cases he : e.1 = k
    · simp only [erase, he, if_true]
      rw [lookup_eq_none_iff]
      exact he ▸ h.1
    · simp only [erase, he, if_false, lookup]
      exact ih h.2

/-- The early return of `OnUpdate` on an empty map agrees with the loop. -/
theorem OnUpdate_eq_updateLoop (f : ObjectGuid → Option Player) (d : Nat) (m : TimerMap) :
    OnUpdate f d m = updateLoop f d m := by
  cases m with
  | nil => rfl
  | cons e rest => simp [OnUpdate]

theorem updateLoop_fire_some (f : ObjectGuid → Option Player) (d a b : Nat)
    (rest : TimerMap) (p : Player) (h : b ≤ d) (hf : f a = some p) :
    updateLoop f d ((a, b) :: rest)
      = ((updateLoop f d rest).1,
          Effect.SendSysMessage p REMINDER :: (updateLoop f d rest).2) := by
  simp [updateLoop, h, hf]

theorem updateLoop_fire_none (f : ObjectGuid → Option Player) (d a b : Nat)
    (rest : TimerMap) (h : b ≤ d) (hf : f a = none) :
    updateLoop f d ((a, b) :: rest) = updateLoop f d rest := by
  simp [updateLoop, h, hf]

theorem updateLoop_keep (f : ObjectGuid → Option Player) (d a b : Nat)
    (rest : TimerMap) (h : ¬ b ≤ d) :
    updateLoop f d ((a, b) :: rest)
      = ((a, (b + U32 - d) % U32) :: (updateLoop f d rest).1, (updateLoop f d rest).2) := by
  simp [updateLoop, h]

theorem keys_updateLoop_sublist (f : ObjectGuid → Option Player) (d : Nat) (m : TimerMap) :
    (keys (updateLoop f d m).1).Sublist (keys m) := by
  induction m with
  | nil => simp [updateLoop, keys]
  | cons e rest ih =>
    by_cases h : e.2 ≤ d
    · cases hf : f e.1 with
      | none =>
        simp only [updateLoop, h, if_true, hf, keys, List.map_cons]
        exact List.Sublist.cons _ ih
      | some p =>
        simp only [updateLoop, h, if_true, hf, keys, List.map_cons]
        exact List.Sublist.cons _ ih
    · simp only [updateLoop, h, if_false, keys, List.map_cons]
      exact List.Sublist.cons₂ _ ih

theorem updateLoop_values_lt (f : ObjectGuid → Option Player) (d : Nat) (m : TimerMap) :
    ∀ e ∈ (updateLoop f d m).1, e.2 < U32 := by
  induction m with
  | nil => simp [updateLoop]
  | cons e rest ih =>
    by_cases h : e.2 ≤ d
    · cases hf : f e.1 <;> simpa [updateLoop, h, hf] using ih
    · intro x hx
      simp only [updateLoop, h, if_false, List.mem_cons] at hx
      rcases hx with hx | hx
      · subst hx
        exact Nat.mod_lt _ (by decide)
      · exact ih x hx

/-- The unsigned subtraction of the loop is exact on `uint32` values. -/
theorem u32_sub_exact (remain diff : Nat) (hlt : remain < U32) (h : ¬ remain ≤ diff) :
    (remain + U32 - diff) % U32 = remain - diff := by
  have h1 : remain + U32 - diff = (remain - diff) + U32 := by omega
  rw [h1, Nat.add_mod_right]
  exact Nat.mod_eq_of_lt (by omega)

theorem lookup_updateLoop (f : ObjectGuid → Option Player) (d k : Nat) (m : TimerMap)
    (hnd : (keys m).Nodup) (hv : ∀ e ∈ m, e.2 < U32) :
    lookup k (updateLoop f d m).1
      = match lookup k m with
        | some v => if d < v then some (v - d) else none
        | none => none := by
  induction m with
  | nil => rfl
  | cons e rest ih =>
    obtain ⟨a, b⟩ := e
    simp only [keys, List.map_cons, List.nodup_cons] at hnd
    have hv2 : ∀ x ∈ rest, x.2 < U32 := fun x hx => hv x (List.mem_cons_of_mem _ hx)
    have he : b < U32 := hv (a, b) (List.mem_cons_self _ _)
    have ih2 := ih hnd.2 hv2
    by_cases hk : a = k
    · subst hk
      have habs : lookup a rest = none := by
        rw [lookup_eq_none_iff]; exact hnd.1
      have habs2 : lookup a (updateLoop f d rest).1 = none := by
        rw [ih2, habs]
      by_cases h : b ≤ d
      · have hd : ¬ d < b := by omega
        cases hf : f a with
        | none => rw [updateLoop_fire_none f d a b rest h hf, habs2]; simp [lookup, hd]
        | some p => rw [updateLoop_fire_some f d a b rest p h hf, habs2]; simp [lookup, hd]
      · have hd : d < b := by omega
        rw [updateLoop_keep f d a b rest h]
        simp [lookup, hd, u32_sub_exact b d he h]
    · by_cases h : b ≤ d
      · cases hf : f a with
        | none => rw [updateLoop_fire_none f d a b rest h hf, ih2]; simp [lookup, hk]
        | some p => rw [updateLoop_fire_some f d a b rest p h hf, ih2]; simp [lookup, hk]
      · rw [updateLoop_keep f d a b rest h]
        simp [lookup, hk, ih2]

theorem notifiedCount_cons_msg (k : Nat) (p : Player) (t : String) (effs : List Effect) :
    notifiedCount k (Effect.SendSysMessage p t :: effs)
      = notifiedCount k effs + if p.GetGUID = k then 1 else 0 := by
  simp [notifiedCount, List.countP_cons]

theorem notifiedCount_append (k : Nat) (xs ys : List Effect) :
    notifiedCount k (xs ++ ys) = notifiedCount k xs + notifiedCount k ys := by
  simp [notifiedCount, List.countP_append]

theorem notifiedCount_updateLoop_absent (f : ObjectGuid → Option Player) (d k : Nat)
    (m : TimerMap) (hf : FindsByGuid f) (hk : lookup k m = none) :
    notifiedCount k (updateLoop f d m).2 = 0 := by
  induction m with
  | nil => rfl
  | cons e rest ih =>
    obtain ⟨a, b⟩ := e
    by_cases hek : a = k
    · simp [lookup, hek] at hk
    · simp only [lookup, hek, if_false] at hk
      have ih2 := ih hk
      by_cases h : b ≤ d
      · cases hfe : f a with
        | none => rw [updateLoop_fire_none f d a b rest h hfe]; exact ih2
        | some p =>
          have hp : p.GetGUID = a := hf _ _ hfe
          have hpk : ¬ p.GetGUID = k := fun e2 => hek (hp.symm.trans e2)
          rw [updateLoop_fire_some f d a b rest p h hfe]
          simp [notifiedCount_cons_msg, hpk, ih2]
      · rw [updateLoop_keep f d a b rest h]; exact ih2

theorem notifiedCount_updateLoop (f : ObjectGuid → Option Player) (d k : Nat)
    (m : TimerMap) (hf : FindsByGuid f) (hnd : (keys m).Nodup) :
    notifiedCount k (updateLoop f d m).2
      = match lookup k m with
        | some v => if v ≤ d ∧ (f k).isSome = true then 1 else 0
        | none => 0 := by
  induction m with
  | nil => rfl
  | cons e rest ih =>
    obtain ⟨a, b⟩ := e
    simp only [keys, List.map_cons, List.nodup_cons] at hnd
    have ih2 := ih hnd.2
    by_cases hk : a = k
    · subst hk
      have habs : lookup a rest = none := by
        rw [lookup_eq_none_iff]; exact hnd.1
      have h0 := notifiedCount_updateLoop_absent f d a rest hf habs
      by_cases h : b ≤ d
      · cases hfe : f a with
        | none =>
          rw [updateLoop_fire_none f d a b rest h hfe, h0]
          simp [lookup]
        | some p =>
          have hp : p.GetGUID = a := hf _ _ hfe
          rw [updateLoop_fire_some f d a b rest p h hfe]
          simp [notifiedCount_cons_msg, hp, h0, lookup, h]
      · rw [updateLoop_keep f d a b rest h, h0]
        simp [lookup, h]
    · by_cases h : b ≤ d
      · cases hfe : f a with
        | none =>
          rw [updateLoop_fire_none f d a b rest h hfe, ih2]
          simp [lookup, hk]
        | some p =>
          have hp : p.GetGUID = a := hf _ _ hfe
          have hpk : ¬ p.GetGUID = k := fun e2 => hk (hp.symm.trans e2)
          rw [updateLoop_fire_some f d a b rest p h hfe]
          simp [notifiedCount_cons_msg, hpk, ih2, lookup, hk]
      · rw [updateLoop_keep f d a b rest h, ih2]
        simp [lookup, hk]

/-! ## Sequences of events -/

theorem run_append (m : TimerMap) (xs ys : List Event) :
    run m (xs ++ ys)
      = ((run (run m xs).1 ys).1, (run m xs).2 ++ (run (run m xs).1 ys).2) := by
  induction xs generalizing m with
  | nil => simp [run]
  | cons ev rest ih => simp [run, ih, List.append_assoc]

theorem elapsed_append (xs ys : List Event) :
    elapsed (xs ++ ys) = elapsed xs + elapsed ys := by
  induction xs with
  | nil => simp [elapsed]
  | cons ev rest ih =>
    cases ev <;> simp [elapsed, ih, Nat.add_assoc]

theorem nodup_keys_step (m : TimerMap) (ev : Event) (h : (keys m).Nodup) :
    (keys (step m ev).1).Nodup := by
  cases ev with
  | login p =>
    cases p with
    | none => exact h
    | some q => exact nodup_keys_assign _ _ _ h
  | logout p =>
    cases p with
    | none => exact h
    | some q => exact (keys_erase_sublist _ _).nodup h
  | update f d =>
    simp only [step, OnUpdate_eq_updateLoop]
    exact (keys_updateLoop_sublist f d m).nodup h

theorem nodup_keys_run (m : TimerMap) (evs : List Event) (h : (keys m).Nodup) :
    (keys (run m evs).1).Nodup := by
  induction evs generalizing m with
  | nil => exact h
  | cons ev rest ih => exact ih _ (nodup_keys_step m ev h)

/-- An identity without an entry gets none, and no message, from any event
that is not a login of it. -/
theorem step_absent (g : Nat) (m : TimerMap) (ev : Event)
    (hq : ev.noLoginOf g) (hh : ev.hostOk) (habs : lookup g m = none) :
    lookup g (step m ev).1 = none ∧ notifiedCount g (step m ev).2 = 0 := by
  cases ev with
  | login p =>
    cases p with
    | none => exact ⟨habs, rfl⟩
    | some q =>
      have hne : ¬ g = q.GetGUID := fun e => hq e.symm
      refine ⟨?_, rfl⟩
      simp [step, OnLogin, lookup_assign, hne, habs]
  | logout p =>
    cases p with
    | none => exact ⟨habs, rfl⟩
    | some q =>
      refine ⟨?_, rfl⟩
      simp only [step, OnLogout]
      rw [lookup_eq_none_iff] at habs ⊢
      exact fun hmem => habs ((keys_erase_sublist _ _).subset hmem)
  | update f d =>
    simp only [step, OnUpdate_eq_updateLoop]
    refine ⟨?_, notifiedCount_updateLoop_absent f d g m hh habs⟩
    rw [lookup_eq_none_iff] at habs ⊢
    exact fun hmem => habs ((keys_updateLoop_sublist f d m).subset hmem)

theorem run_absent (g : Nat) (evs : List Event) (m : TimerMap)
    (hq : ∀ ev ∈ evs, ev.noLoginOf g ∧ ev.hostOk) (habs : lookup g m = none) :
    lookup g (run m evs).1 = none ∧ notifiedCount g (run m evs).2 = 0 := by
  induction evs generalizing m with
  | nil => exact ⟨habs, rfl⟩
  | cons ev rest ih =>
    have h1 := hq ev (List.mem_cons_self _ _)
    have hs := step_absent g m ev h1.1 h1.2 habs
    have hr := ih (step m ev).1 (fun e he => hq e (List.mem_cons_of_mem _ he)) hs.1
    refine ⟨hr.1, ?_⟩
    simp only [run, notifiedCount_append, hs.2, hr.2]

theorem quietFor_noLoginOf (g : Nat) (ev : Event) (h : ev.quietFor g) : ev.noLoginOf g := by
  cases ev with
  | login p => cases p <;> exact h
  | logout p => trivial
  | update f d => trivial

/-- The entry of one identity under the loop: only its own remaining value
matters. -/
theorem lookup_updateLoop_own (f : ObjectGuid → Option Player) (d g v : Nat) (m : TimerMap)
    (hnd : (keys m).Nodup) (hg : lookup g m = some v) (hv : v < U32) :
    lookup g (updateLoop f d m).1 = if d < v then some (v - d) else none := by
  induction m with
  | nil => simp [lookup] at hg
  | cons e rest ih =>
    obtain ⟨a, b⟩ := e
    simp only [keys, List.map_cons, List.nodup_cons] at hnd
    by_cases hk : a = g
    · subst hk
      simp only [lookup, if_true, Option.some.injEq] at hg
      subst hg
      have habs : lookup a (updateLoop f d rest).1 = none := by
        rw [lookup_eq_none_iff]
        exact fun hmem => hnd.1 ((keys_updateLoop_sublist f d rest).subset hmem)
      by_cases h : b ≤ d
      · have hd : ¬ d < b := by omega
        cases hf : f a with
        | none => rw [updateLoop_fire_none f d a b rest h hf, habs]; simp [hd]
        | some p => rw [updateLoop_fire_some f d a b rest p h hf, habs]; simp [hd]
      · have hd : d < b := by omega
        rw [updateLoop_keep f d a b rest h]
        simp [lookup, hd, u32_sub_exact b d hv h]
    · simp only [lookup, hk, if_false] at hg
      have ih2 := ih hnd.2 hg
      by_cases h : b ≤ d
      · cases hf : f a with
        | none => rw [updateLoop_fire_none f d a b rest h hf, ih2]
        | some p => rw [updateLoop_fire_some f d a b rest p h hf, ih2]
      · rw [updateLoop_keep f d a b rest h]
        simp [lookup, hk, ih2]

/-- An armed identity that stays present, under events that are no login or
logout of it: its entry counts down and it is notified once, when the
elapsed total reaches its remaining value. -/
theorem run_armed (g : Nat) (evs : List Event) (m : TimerMap) (v : Nat)
    (hnd : (keys m).Nodup) (hg : lookup g m = some v) (hpos : 0 < v) (hv : v < U32)
    (hq : ∀ ev ∈ evs, ev.quietFor g ∧ ev.hostOk ∧ ev.finds g) :
    lookup g (run m evs).1 = (if elapsed evs < v then some (v - elapsed evs) else none)
    ∧ notifiedCount g (run m evs).2 = (if v ≤ elapsed evs then 1 else 0) := by
  induction evs generalizing m v with
  | nil =>
    have h0 : ¬ v ≤ 0 := by omega
    simp [run, elapsed, hg, hpos, h0, notifiedCount]
  | cons ev rest ih =>
    have h1 := hq ev (List.mem_cons_self _ _)
    have hrest : ∀ e ∈ rest, e.quietFor g ∧ e.hostOk ∧ e.finds g :=
      fun e he => hq e (List.mem_cons_of_mem _ he)
    have hnd2 := nodup_keys_step m ev hnd
    cases ev with
    | login p =>
      cases p with
      | none => simpa [run, step, OnLogin, elapsed] using ih m v hnd hg hpos hv hrest
      | some q =>
        have hne : ¬ g = q.GetGUID := fun e => h1.1 e.symm
        have hg2 : lookup g (step m (Event.login (some q))).1 = some v := by
          simp [step, OnLogin, lookup_assign, hne, hg]
        have := ih _ v hnd2 hg2 hpos hv hrest
        simpa [run, step, elapsed, notifiedCount_append, notifiedCount] using this
    | logout p =>
      cases p with
      | none => simpa [run, step, OnLogout, elapsed] using ih m v hnd hg hpos hv hrest
      | some q =>
        have hne : g ≠ q.GetGUID := fun e => h1.1 e.symm
        have hg2 : lookup g (step m (Event.logout (some q))).1 = some v := by
          simp only [step, OnLogout]
          rw [lookup_erase_ne _ _ _ hne, hg]
        have := ih _ v hnd2 hg2 hpos hv hrest
        simpa [run, step, elapsed, notifiedCount_append, notifiedCount] using this
    | update f d =>
      have hf : FindsByGuid f := h1.2.1
      have hfind : (f g).isSome = true := h1.2.2
      have hlk := lookup_updateLoop_own f d g v m hnd hg hv
      have hcnt := notifiedCount_updateLoop f d g m hf hnd
      rw [hg] at hcnt
      simp only [run, step, OnUpdate_eq_updateLoop, elapsed, notifiedCount_append]
      simp only [step, OnUpdate_eq_updateLoop] at hnd2
      by_cases h : v ≤ d
      · have hd : ¬ d < v := by omega
        rw [if_neg hd] at hlk
        have hab := run_absent g rest (updateLoop f d m).1
          (fun e he => ⟨quietFor_noLoginOf g e (hrest e he).1, (hrest e he).2.1⟩) hlk
        have h2 : ¬ d + elapsed rest < v := by omega
        have h3 : v ≤ d + elapsed rest := by omega
        simp [hab.1, hab.2, hcnt, h, hfind, h2, h3]
      · have hd : d < v := by omega
        rw [if_pos hd] at hlk
        have hr := ih (updateLoop f d m).1 (v - d) hnd2 hlk (by omega) (by omega) hrest
        have hc0 : notifiedCount g (updateLoop f d m).2 = 0 := by
          rw [hcnt]; simp [h]
        rw [hr.1, hr.2, hc0]
        constructor
        · by_cases h5 : elapsed rest < v - d
          · have h6 : d + elapsed rest < v := by omega
            simp only [h5, h6, if_true, Option.some.injEq]
            omega
          · have h6 : ¬ d + elapsed rest < v := by omega
            simp [h5, h6]
        · by_cases h5 : v - d ≤ elapsed rest
          · have h6 : v ≤ d + elapsed rest := by omega
            simp [h5, h6]
          · have h6 : ¬ v ≤ d + elapsed rest := by omega
            simp [h5, h6]

theorem updateLoop_fst_eq (f : ObjectGuid → Option Player) (d : Nat) (m : TimerMap)
    (hv : ∀ e ∈ m, e.2 < U32) :
    (updateLoop f d m).1
      = (m.filter fun e => decide (d < e.2)).map fun e => (e.1, e.2 - d) := by
  induction m with
  | nil => rfl
  | cons e rest ih =>
    obtain ⟨a, b⟩ := e
    have ih2 := ih fun x hx => hv x (List.mem_cons_of_mem _ hx)
    have hb : b < U32 := hv (a, b) (List.mem_cons_self _ _)
    by_cases h : b ≤ d
    · have hd : ¬ d < b := by omega
      cases hf : f a with
      | none => rw [updateLoop_fire_none f d a b rest h hf, ih2]; simp [List.filter_cons, hd]
      | some p => rw [updateLoop_fire_some f d a b rest p h hf, ih2]; simp [List.filter_cons, hd]
    · have hd : d < b := by omega
      rw [updateLoop_keep f d a b rest h, ih2]
      simp [List.filter_cons, hd, u32_sub_exact b d hb h]

theorem updateLoop_snd_eq (f : ObjectGuid → Option Player) (d : Nat) (m : TimerMap) :
    (updateLoop f d m).2
      = (m.filter fun e => decide (e.2 ≤ d)).filterMap
          fun e => (f e.1).map fun p => Effect.SendSysMessage p REMINDER := by
  induction m with
  | nil => rfl
  | cons e rest ih =>
    obtain ⟨a, b⟩ := e
    by_cases h : b ≤ d
    · cases hf : f a with
      | none =>
        rw [updateLoop_fire_none f d a b rest h hf, ih]
        simp [List.filter_cons, h, List.filterMap_cons, hf]
      | some p =>
        rw [updateLoop_fire_some f d a b rest p h hf, ih]
        simp [List.filter_cons, h, List.filterMap_cons, hf]
    · rw [updateLoop_keep f d a b rest h, ih]
      simp [List.filter_cons, h]

theorem filter_eq_assign (k v : Nat) (m : TimerMap) (hnd : (keys m).Nodup) :
    (assign k v m).filter (fun e => decide (e.1 = k)) = [(k, v)] := by
  induction m with
  | nil => simp [assign]
  | cons e rest ih =>
    obtain ⟨a, b⟩ := e
    simp only [keys, List.map_cons, List.nodup_cons] at hnd
    by_cases he : a = k
    · subst he
      have hnone : ∀ x ∈ rest, ¬ x.1 = a := by
        intro x hx hxa
        exact hnd.1 (hxa ▸ List.mem_map_of_mem Prod.fst hx)
      have hf : rest.filter (fun e => decide (e.1 = a)) = [] := by
        rw [List.filter_eq_nil_iff]
        intro x hx
        simpa using hnone x hx
      simp [assign, List.filter_cons, hf]
    · simp [assign, he, List.filter_cons, ih hnd.2]

theorem filter_ne_assign (k v : Nat) (m : TimerMap) :
    (assign k v m).filter (fun e => decide (e.1 ≠ k))
      = m.filter (fun e => decide (e.1 ≠ k)) := by
  induction m with
  | nil => simp [assign]
  | cons e rest ih =>
    obtain ⟨a, b⟩ := e
    by_cases he : a = k
    · simp [assign, he, List.filter_cons]
    · simp only [assign, he, if_false, List.filter_cons, ih]

theorem length_assign (k v : Nat) (m : TimerMap) :
    (assign k v m).length = if k ∈ keys m then m.length else m.length + 1 := by
  have h := congrArg List.length (keys_assign k v m)
  simp only [keys, List.length_map] at h
  rw [h]
  by_cases hm : k ∈ keys m
  · simp only [keys] at hm
    simp [keys, hm]
  · simp only [keys] at hm
    simp [keys, hm]

/-- The sample directory honours the host contract. -/
theorem sampleFind_ok : FindsByGuid sampleFind := by
  intro g p h
  unfold sampleFind at h
  by_cases h1 : g = 1
  · rw [if_pos h1] at h
    cases h
    exact h1.symm
  · rw [if_neg h1] at h
    by_cases h2 : g = 2
    · rw [if_pos h2] at h
      cases h
      exact h2.symm
    · rw [if_neg h2] at h
      cases h

/-! ## Delayed login announcement: the claims -/

/-- C2: one call `OnUpdate(d)` resolves every entry of a well-formed timer map
once.  The entries kept are those with remaining value above `d`, in order,
each lowered by `d`; so an identity is in the new map exactly when its value
was above `d`.  The calls made are one reminder for each entry with value at
most `d` whose identity the directory finds, and nothing else; so such an
identity receives exactly one reminder, and every other identity none. -/
theorem C2_update_resolves (f : ObjectGuid → Option Player) (d : Nat) (M : TimerMap)
    (hf : FindsByGuid f) (hwf : WellFormed M) :
    (OnUpdate f d M).1 = ((M.filter fun e => decide (d < e.2)).map fun e => (e.1, e.2 - d))
    ∧ (OnUpdate f d M).2
        = ((M.filter fun e => decide (e.2 ≤ d)).filterMap
            fun e => (f e.1).map fun p => Effect.SendSysMessage p REMINDER)
    ∧ WellFormed (OnUpdate f d M).1
    ∧ (∀ k, lookup k (OnUpdate f d M).1
        = match lookup k M with
          | some v => if d < v then some (v - d) else none
          | none => none)
    ∧ (∀ k, notifiedCount k (OnUpdate f d M).2
        = match lookup k M with
          | some v => if v ≤ d ∧ (f k).isSome = true then 1 else 0
          | none => 0) := by
  rw [OnUpdate_eq_updateLoop]
  refine ⟨updateLoop_fst_eq f d M hwf.2, updateLoop_snd_eq f d M, ?_, ?_, ?_⟩
  · exact ⟨(keys_updateLoop_sublist f d M).nodup hwf.1, updateLoop_values_lt f d M⟩
  · exact fun k => lookup_updateLoop f d k M hwf.1 hwf.2
  · exact fun k => notifiedCount_updateLoop f d k M hf hwf.1

/-- C2 on a map where two entries fire in the same call, one of them for an
identity the directory does not find. -/
theorem C2_update_resolves_witness :
    FindsByGuid sampleFind ∧ WellFormed [(1, 300), (3, 200), (2, 10000)]
    ∧ (OnUpdate sampleFind 300 [(1, 300), (3, 200), (2, 10000)]).1 = [(2, 9700)]
    ∧ notifiedCount 1 (OnUpdate sampleFind 300 [(1, 300), (3, 200), (2, 10000)]).2 = 1
    ∧ notifiedCount 3 (OnUpdate sampleFind 300 [(1, 300), (3, 200), (2, 10000)]).2 = 0
    ∧ notifiedCount 2 (OnUpdate sampleFind 300 [(1, 300), (3, 200), (2, 10000)]).2 = 0 :=
  ⟨sampleFind_ok, by decide,
    ((C2_update_resolves sampleFind 300 [(1, 300), (3, 200), (2, 10000)]
        sampleFind_ok (by decide)).1).trans (by decide),
    ((C2_update_resolves sampleFind 300 [(1, 300), (3, 200), (2, 10000)]
        sampleFind_ok (by decide)).2.2.2.2 1).trans (by decide),
    ((C2_update_resolves sampleFind 300 [(1, 300), (3, 200), (2, 10000)]
        sampleFind_ok (by decide)).2.2.2.2 3).trans (by decide),
    ((C2_update_resolves sampleFind 300 [(1, 300), (3, 200), (2, 10000)]
        sampleFind_ok (by decide)).2.2.2.2 2).trans (by decide)⟩

/-- C3: after `OnLogin(P)` on a timer map with one entry per key, for events
that are neither a login nor a logout of `P` and during which the directory
keeps finding `P`: the `OnUpdate(d)` that follows the events `pre` notifies `P`
exactly when the elapsed total reaches 10000 with it (it was below 10000
before and is at least 10000 after), and then not at all otherwise; after that
call `P` has an entry exactly while the total is below 10000; over the whole
sequence `P` is notified once if the total reaches 10000 and never if not. -/
theorem C3_fires_once (M : TimerMap) (P : Player) (pre post : List Event)
    (f : ObjectGuid → Option Player) (d : Nat) (hnd : (keys M).Nodup)
    (hq : ∀ ev ∈ pre ++ Event.update f d :: post,
      ev.quietFor P.GetGUID ∧ ev.hostOk ∧ ev.finds P.GetGUID) :
    notifiedCount P.GetGUID (OnUpdate f d (run (OnLogin (some P) M) pre).1).2
        = (if elapsed pre < 10000 ∧ 10000 ≤ elapsed pre + d then 1 else 0)
    ∧ lookup P.GetGUID (OnUpdate f d (run (OnLogin (some P) M) pre).1).1
        = (if elapsed pre + d < 10000 then some (10000 - (elapsed pre + d)) else none)
    ∧ notifiedCount P.GetGUID (run (OnLogin (some P) M) (pre ++ Event.update f d :: post)).2
        = (if 10000 ≤ elapsed pre + d + elapsed post then 1 else 0) := by
  have hnd0 : (keys (OnLogin (some P) M)).Nodup := nodup_keys_assign _ _ _ hnd
  have hg0 : lookup P.GetGUID (OnLogin (some P) M) = some 10000 := by
    simp [OnLogin, lookup_assign, ANNOUNCE_DELAY]
  have hpre : ∀ ev ∈ pre, ev.quietFor P.GetGUID ∧ ev.hostOk ∧ ev.finds P.GetGUID :=
    fun ev hev => hq ev (List.mem_append_left _ hev)
  have hmid : ∀ ev ∈ pre ++ [Event.update f d],
      ev.quietFor P.GetGUID ∧ ev.hostOk ∧ ev.finds P.GetGUID := by
    intro ev hev
    apply hq
    rcases List.mem_append.1 hev with h | h
    · exact List.mem_append_left _ h
    · simp only [List.mem_singleton] at h
      subst h
      exact List.mem_append_right _ (List.mem_cons_self _ _)
  have h1 := run_armed P.GetGUID pre (OnLogin (some P) M) 10000 hnd0 hg0
    (by decide) (by decide) hpre
  have h2 := run_armed P.GetGUID (pre ++ [Event.update f d]) (OnLogin (some P) M) 10000
    hnd0 hg0 (by decide) (by decide) hmid
  have h3 := run_armed P.GetGUID (pre ++ Event.update f d :: post) (OnLogin (some P) M) 10000
    hnd0 hg0 (by decide) (by decide) hq
  have hel : elapsed (pre ++ [Event.update f d]) = elapsed pre + d := by
    simp [elapsed_append, elapsed]
  have hel3 : elapsed (pre ++ Event.update f d :: post) = elapsed pre + d + elapsed post := by
    simp [elapsed_append, elapsed, Nat.add_assoc]
  rw [run_append] at h2
  simp only [run, step, List.append_nil, notifiedCount_append, hel] at h2
  rw [hel3] at h3
  refine ⟨?_, h2.1, h3.2⟩
  have hc := h2.2
  rw [h1.2] at hc
  by_cases ha : 10000 ≤ elapsed pre
  · have hb : 10000 ≤ elapsed pre + d := by omega
    have hn : ¬ (elapsed pre < 10000 ∧ 10000 ≤ elapsed pre + d) := by omega
    simp only [ha, hb, if_true] at hc
    rw [if_neg hn]
    omega
  · by_cases hb : 10000 ≤ elapsed pre + d
    · have hn : elapsed pre < 10000 ∧ 10000 ≤ elapsed pre + d := by omega
      simp only [ha, hb, if_true, if_false] at hc
      rw [if_pos hn]
      omega
    · have hn : ¬ (elapsed pre < 10000 ∧ 10000 ≤ elapsed pre + d) := by omega
      simp only [ha, hb, if_false] at hc
      rw [if_neg hn]
      omega

/-- C3 on the scenario `OnLogin(P1)`, `OnUpdate(5000)`, `OnUpdate(5000)`,
`OnUpdate(7)`: silent on the first call, one reminder on the second, the entry
gone after it, silent on the third. -/
theorem C3_fires_once_witness :
    notifiedCount alice.GetGUID (OnUpdate sampleFind 5000 (run (OnLogin (some alice) []) []).1).2
        = 0
    ∧ notifiedCount alice.GetGUID
        (OnUpdate sampleFind 5000
          (run (OnLogin (some alice) []) [Event.update sampleFind 5000]).1).2 = 1
    ∧ lookup alice.GetGUID
        (OnUpdate sampleFind 5000
          (run (OnLogin (some alice) []) [Event.update sampleFind 5000]).1).1 = none
    ∧ notifiedCount alice.GetGUID
        (OnUpdate sampleFind 7
          (run (OnLogin (some alice) [])
            [Event.update sampleFind 5000, Event.update sampleFind 5000]).1).2 = 0
    ∧ notifiedCount alice.GetGUID
        (run (OnLogin (some alice) [])
          ([Event.update sampleFind 5000]
            ++ Event.update sampleFind 5000 :: [Event.update sampleFind 7])).2 = 1 :=
  have hq : ∀ pre post : List Event, ∀ d : Nat,
      (∀ ev ∈ pre, ∃ n, ev = Event.update sampleFind n) →
      (∀ ev ∈ post, ∃ n, ev = Event.update sampleFind n) →
      ∀ ev ∈ pre ++ Event.update sampleFind d :: post,
        ev.quietFor alice.GetGUID ∧ ev.hostOk ∧ ev.finds alice.GetGUID := by
    intro pre post d h1 h2 ev hev
    have hx : ∃ n, ev = Event.update sampleFind n := by
      rcases List.mem_append.1 hev with h | h
      · exact h1 ev h
      · rcases List.mem_cons.1 h with h | h
        · exact ⟨d, h⟩
        · exact h2 ev h
    obtain ⟨n, rfl⟩ := hx
    exact ⟨trivial, sampleFind_ok, rfl⟩
  ⟨((C3_fires_once [] alice [] [Event.update sampleFind 5000, Event.update sampleFind 7]
        sampleFind 5000 (by decide)
        (hq [] _ 5000 (by simp) (by simp))).1).trans (by decide),
    ((C3_fires_once [] alice [Event.update sampleFind 5000] [Event.update sampleFind 7]
        sampleFind 5000 (by decide)
        (hq _ _ 5000 (by simp) (by simp))).1).trans (by decide),
    ((C3_fires_once [] alice [Event.update sampleFind 5000] [Event.update sampleFind 7]
        sampleFind 5000 (by decide)
        (hq _ _ 5000 (by simp) (by simp))).2.1).trans (by decide),
    ((C3_fires_once [] alice [Event.update sampleFind 5000, Event.update sampleFind 5000] []
        sampleFind 7 (by decide)
        (hq _ [] 7 (by simp) (by simp))).1).trans (by decide),
    ((C3_fires_once [] alice [Event.update sampleFind 5000] [Event.update sampleFind 7]
        sampleFind 5000 (by decide)
        (hq _ _ 5000 (by simp) (by simp))).2.2).trans (by decide)⟩

/-- C7: on a timer map with one entry per key, after `OnLogin(P)` followed by
`OnLogout(P)`, any further events without a login of `P` send `P` no reminder,
and `P` has no entry at the end; the login and the logout themselves send
nothing. -/
theorem C7_logout_cancels (M : TimerMap) (P : Player) (evs : List Event)
    (hnd : (keys M).Nodup)
    (hq : ∀ ev ∈ evs, ev.noLoginOf P.GetGUID ∧ ev.hostOk) :
    notifiedCount P.GetGUID
        (run M (Event.login (some P) :: Event.logout (some P) :: evs)).2 = 0
    ∧ lookup P.GetGUID
        (run M (Event.login (some P) :: Event.logout (some P) :: evs)).1 = none
    ∧ notifiedCount P.GetGUID (run (OnLogout (some P) (OnLogin (some P) M)) evs).2 = 0 := by
  have hnd0 : (keys (OnLogin (some P) M)).Nodup := nodup_keys_assign _ _ _ hnd
  have habs : lookup P.GetGUID (OnLogout (some P) (OnLogin (some P) M)) = none :=
    lookup_erase_self _ _ hnd0
  have hr := run_absent P.GetGUID evs _ hq habs
  refine ⟨?_, ?_, hr.2⟩
  · simp only [run, step, notifiedCount_append, hr.2]
    rfl
  · simp only [run, step]
    exact hr.1

/-- C7 on the scenario `OnLogin(P1)`, `OnLogout(P1)`, `OnUpdate(999999)`. -/
theorem C7_logout_cancels_witness :
    (keys ([] : TimerMap)).Nodup
    ∧ notifiedCount alice.GetGUID
        (run [] [Event.login (some alice), Event.logout (some alice),
          Event.update sampleFind 999999]).2 = 0 :=
  ⟨by decide,
    (C7_logout_cancels [] alice [Event.update sampleFind 999999] (by decide)
      (by
        intro ev hev
        simp only [List.mem_singleton] at hev
        subst hev
        exact ⟨trivial, sampleFind_ok⟩)).1⟩

/-- C8: every timer map reached from the empty one by logins, logouts and
updates has at most one entry per identity; and on a map with one entry per
key, `OnLogin(P)` leaves exactly one entry for `P`, with remaining value
10000, whatever `P` had before, leaves the entries of all other identities as
they were, and adds an entry only if `P` had none. -/
theorem C8_one_entry_per_identity :
    (∀ evs : List Event, (keys (run [] evs).1).Nodup)
    ∧ ∀ (M : TimerMap) (P : Player), (keys M).Nodup →
        (keys (OnLogin (some P) M)).Nodup
        ∧ (OnLogin (some P) M).filter (fun e => decide (e.1 = P.GetGUID))
            = [(P.GetGUID, 10000)]
        ∧ lookup P.GetGUID (OnLogin (some P) M) = some 10000
        ∧ (OnLogin (some P) M).filter (fun e => decide (e.1 ≠ P.GetGUID))
            = M.filter (fun e => decide (e.1 ≠ P.GetGUID))
        ∧ (∀ k, k ≠ P.GetGUID → lookup k (OnLogin (some P) M) = lookup k M)
        ∧ (OnLogin (some P) M).length
            = if P.GetGUID ∈ keys M then M.length else M.length + 1 := by
  refine ⟨fun evs => nodup_keys_run [] evs (by decide), ?_⟩
  intro M P hnd
  refine ⟨nodup_keys_assign _ _ _ hnd, filter_eq_assign _ _ _ hnd, ?_,
    filter_ne_assign _ _ _, ?_, length_assign _ _ _⟩
  · simp [OnLogin, lookup_assign, ANNOUNCE_DELAY]
  · intro k hk
    simp [OnLogin, lookup_assign, hk]

/-- C8 on a second login: the countdown of `alice` is reset from 4000 to
10000, no entry is added, `bob` keeps his. -/
theorem C8_one_entry_per_identity_witness :
    (keys [(2, 7), (1, 4000)]).Nodup
    ∧ OnLogin (some alice) [(2, 7), (1, 4000)] = [(2, 7), (1, 10000)]
    ∧ (OnLogin (some alice) [(2, 7), (1, 4000)]).filter (fun e => decide (e.1 = alice.GetGUID))
        = [(alice.GetGUID, 10000)] :=
  ⟨by decide, by decide,
    (C8_one_entry_per_identity.2 [(2, 7), (1, 4000)] alice (by decide)).2.1⟩

/-! ## Triggers and the text they pass on -/

/-- The erase-front loop of the command removes the longest whitespace
prefix. -/
theorem trimLoop_eq_dropWhile (l : List Char) : trimLoop l = l.dropWhile isspace := by
  induction l with
  | nil => rfl
  | cons c cs ih =>
    by_cases h : isspace c = true
    · simp [trimLoop, List.dropWhile_cons, h, ih]
    · simp [trimLoop, List.dropWhile_cons, h]

theorem dropWhile_nil_of_all (p : Char → Bool) (l : List Char)
    (h : ∀ x ∈ l.dropWhile p, p x = true) : l.dropWhile p = [] := by
  induction l with
  | nil => rfl
  | cons c cs ih =>
    by_cases hc : p c = true
    · simp only [List.dropWhile_cons, hc, if_true] at h ⊢
      exact ih h
    · simp only [List.dropWhile_cons, hc] at h
      exact absurd (h c (List.mem_cons_self _ _)) hc

theorem trimLoop_nil_of_specTrim (s : String) (h : specTrim s = "") :
    trimLoop s.data = [] := by
  have h1 : ((s.data.dropWhile isspace).reverse.dropWhile isspace).reverse = [] :=
    congrArg String.data h
  rw [List.reverse_eq_nil_iff, List.dropWhile_eq_nil_iff] at h1
  rw [trimLoop_eq_dropWhile]
  apply dropWhile_nil_of_all
  intro x hx
  exact h1 x (List.mem_reverse.2 hx)

/-- C9 as stated fails: with the default config and a sender that has a
session, `SendWorldMessage` on the whitespace-only text of three spaces writes
a log line and delivers to both eligible entries; the chat-event trigger hands
such a text over as it is. -/
theorem C9_counterexample :
    specTrim "   " = ""
    ∧ logWrites (SendWorldMessage WC_Config sampleDirectory (some alice) "   ")
        = ["[Global] [A] Alice:    "]
    ∧ (deliveries (SendWorldMessage WC_Config sampleDirectory (some alice) "   ")).length = 2
    ∧ (OnPlayerChat WC_Config sampleDirectory (some alice) 0 0 "   " (some ⟨"global"⟩)).2
        = SendWorldMessage WC_Config sampleDirectory (some alice) "   " := by
  decide

/-- C9, amended: the `.chat` command called with a tail that is empty after
trimming whitespace makes no delivery and writes no log line, for every
config, handler and directory snapshot: `SendWorldMessage` is not reached. -/
theorem C9_blank_command_silent (cfg : WCConfig) (players : PlayerMap)
    (handler : ChatHandler) (tail : String) (hblank : specTrim tail = "") :
    deliveries (HandleWorldChatCommand cfg players handler tail).2 = []
    ∧ logWrites (HandleWorldChatCommand cfg players handler tail).2 = [] := by
  have ht := trimLoop_nil_of_specTrim tail hblank
  cases hen : cfg.Enabled with
  | false => simp [HandleWorldChatCommand, hen, deliveries, logWrites]
  | true =>
    cases hsess : handler.GetSession with
    | none => simp [HandleWorldChatCommand, hen, hsess, deliveries, logWrites]
    | some sess =>
      cases hp : sess.GetPlayer with
      | none => simp [HandleWorldChatCommand, hen, hsess, hp, deliveries, logWrites]
      | some s => simp [HandleWorldChatCommand, hen, hsess, hp, ht, deliveries, logWrites]

/-- C9, amended, on the tail of three spaces. -/
theorem C9_blank_command_silent_witness :
    specTrim "   " = ""
    ∧ deliveries (HandleWorldChatCommand WC_Config sampleDirectory aliceHandler "   ").2 = []
    ∧ logWrites (HandleWorldChatCommand WC_Config sampleDirectory aliceHandler "   ").2 = [] :=
  ⟨by decide,
    C9_blank_command_silent WC_Config sampleDirectory aliceHandler "   " (by decide)⟩

/-- C10 as stated fails: the command keeps the trailing whitespace of its
tail, and the chat-event trigger keeps both the leading and the trailing
whitespace of the message. -/
theorem C10_counterexample :
    specTrim "hi  " = "hi"
    ∧ logWrites (HandleWorldChatCommand WC_Config sampleDirectory aliceHandler "hi  ").2
        = ["[Global] [A] Alice: hi  "]
    ∧ (HandleWorldChatCommand WC_Config sampleDirectory aliceHandler "hi  ").2
        ≠ SendWorldMessage WC_Config sampleDirectory (some alice) (specTrim "hi  ")
    ∧ specTrim " hi " = "hi"
    ∧ logWrites
        (OnPlayerChat WC_Config sampleDirectory (some alice) 0 0 " hi " (some ⟨"global"⟩)).2
        = ["[Global] [A] Alice:  hi "]
    ∧ (OnPlayerChat WC_Config sampleDirectory (some alice) 0 0 " hi " (some ⟨"global"⟩)).2
        ≠ SendWorldMessage WC_Config sampleDirectory (some alice) (specTrim " hi ") := by
  decide

/-- C10, amended: a message that reaches rendering through the `.chat`
command is rendered with the submitted tail less its leading whitespace, the
trailing whitespace kept, in the plain line and in the display line; a message
that reaches rendering through a chat event on the configured channel is
rendered with the submitted text unchanged. -/
theorem C10_rendered_text (cfg : WCConfig) (players : PlayerMap) (s : Player)
    (hen : cfg.Enabled = true) (hs : s.GetSession ≠ none) :
    (∀ (handler : ChatHandler) (sess : WorldSession) (tail : String),
        handler.GetSession = some sess → sess.GetPlayer = some s →
        specTrimLeft tail ≠ "" →
        (HandleWorldChatCommand cfg players handler tail).2
            = SendWorldMessage cfg players (some s) (specTrimLeft tail)
        ∧ logWrites (HandleWorldChatCommand cfg players handler tail).2
            = [plainLine cfg s (specTrimLeft tail)]
        ∧ deliveries (HandleWorldChatCommand cfg players handler tail).2
            = (recipients cfg s players).map
                (fun r => (r, coloredLine cfg s (specTrimLeft tail))))
    ∧ (∀ (ty lang : Nat) (msg : String) (ch : Channel),
        lang ≠ LANG_ADDON → cfg.ChannelName ≠ "" →
        ToUpper ch.GetName = ToUpper cfg.ChannelName →
        (OnPlayerChat cfg players (some s) ty lang msg (some ch)).2
            = SendWorldMessage cfg players (some s) msg
        ∧ logWrites (OnPlayerChat cfg players (some s) ty lang msg (some ch)).2
            = [plainLine cfg s msg]
        ∧ deliveries (OnPlayerChat cfg players (some s) ty lang msg (some ch)).2
            = (recipients cfg s players).map (fun r => (r, coloredLine cfg s msg))) := by
  constructor
  · intro handler sess tail hsess hp hne
    have hne2 : trimLoop tail.data ≠ [] := by
      intro h
      apply hne
      simp only [specTrimLeft, ← trimLoop_eq_dropWhile, h]
    have hemp : (trimLoop tail.data).isEmpty = false := by
      cases hl : trimLoop tail.data with
      | nil => exact absurd hl hne2
      | cons c cs => rfl
    have heq : (HandleWorldChatCommand cfg players handler tail).2
        = SendWorldMessage cfg players (some s) (specTrimLeft tail) := by
      have hspec : specTrimLeft tail = String.mk (trimLoop tail.data) := by
        simp only [specTrimLeft, trimLoop_eq_dropWhile]
      rw [hspec]
      simp only [HandleWorldChatCommand, hen, hsess, hp, hemp, Bool.not_true,
        Bool.false_eq_true, if_false]
    rw [heq]
    exact ⟨rfl, logWrites_send cfg players s _ hen hs, deliveries_send cfg players s _ hen hs⟩
  · intro ty lang msg ch hlang hname hup
    have hemp : cfg.ChannelName.data.isEmpty = false := by
      cases hl : cfg.ChannelName.data with
      | nil =>
        exfalso
        apply hname
        have : cfg.ChannelName = String.mk cfg.ChannelName.data := rfl
        rw [this, hl]
      | cons c cs => rfl
    have heq : (OnPlayerChat cfg players (some s) ty lang msg (some ch)).2
        = SendWorldMessage cfg players (some s) msg := by
      simp [OnPlayerChat, hen, hlang, hemp, hup]
    rw [heq]
    exact ⟨rfl, logWrites_send cfg players s _ hen hs, deliveries_send cfg players s _ hen hs⟩

/-- C10, amended, on the tail `"  hi  "` of the command and the chat message
`" hi "`. -/
theorem C10_rendered_text_witness :
    WC_Config.Enabled = true ∧ alice.GetSession ≠ none
    ∧ specTrimLeft "  hi  " = "hi  "
    ∧ logWrites (HandleWorldChatCommand WC_Config sampleDirectory aliceHandler "  hi  ").2
        = ["[Global] [A] Alice: hi  "]
    ∧ logWrites
        (OnPlayerChat WC_Config sampleDirectory (some alice) 0 0 " hi " (some ⟨"global"⟩)).2
        = ["[Global] [A] Alice:  hi "] :=
  ⟨by decide, by decide, by decide,
    (((C10_rendered_text WC_Config sampleDirectory alice (by decide) (by decide)).1
        aliceHandler ⟨101, some alice⟩ "  hi  " rfl rfl (by decide)).2.1).trans (by decide),
    (((C10_rendered_text WC_Config sampleDirectory alice (by decide) (by decide)).2
        0 0 " hi " ⟨"global"⟩ (by decide) (by decide) (by decide)).2.1).trans (by decide)⟩

/-! ## The command and the chat-event trigger -/

theorem usageReplies_deliverLoop (cfg : WCConfig) (s : Player) (line : String)
    (players : PlayerMap) :
    usageReplies (deliverLoop cfg s line players) = [] := by
  induction players with
  | nil => rfl
  | cons pair rest ih =>
    obtain ⟨g, r⟩ := pair
    cases r with
    | none => simpa [deliverLoop] using ih
    | some recv =>
      by_cases hw : recv.IsInWorld = true <;>
        by_cases hs : SameTeamOrCross cfg (some s) (some recv) = true <;>
        simp [deliverLoop, hw, hs, usageReplies, List.filterMap_cons] <;>
        simpa [usageReplies] using ih

theorem usageReplies_send (cfg : WCConfig) (players : PlayerMap) (sender : Option Player)
    (text : String) : usageReplies (SendWorldMessage cfg players sender text) = [] := by
  cases hen : cfg.Enabled with
  | false => simp [SendWorldMessage, hen, usageReplies]
  | true =>
    cases sender with
    | none => simp [SendWorldMessage, hen, usageReplies]
    | some s =>
      cases hs : s.GetSession with
      | none => simp [SendWorldMessage, hen, hs, usageReplies]
      | some sid =>
        have h := usageReplies_deliverLoop cfg s (coloredLine cfg s text) players
        simp only [usageReplies] at h
        simp [SendWorldMessage, hen, hs, usageReplies, List.filterMap_cons, h]

theorem trimLoop_eq_nil_iff (l : List Char) :
    trimLoop l = [] ↔ ∀ c ∈ l, isspace c = true := by
  rw [trimLoop_eq_dropWhile, List.dropWhile_eq_nil_iff]

/-- The command on a tail that is whitespace only: the usage reply and
nothing else. -/
theorem command_blank (cfg : WCConfig) (players : PlayerMap) (handler : ChatHandler)
    (sess : WorldSession) (s : Player) (tail : String)
    (hen : cfg.Enabled = true) (hsess : handler.GetSession = some sess)
    (hp : sess.GetPlayer = some s) (hblank : trimLoop tail.data = []) :
    HandleWorldChatCommand cfg players handler tail
      = (true, [Effect.PSendSysMessage handler "Usage: .chat <message>"]) := by
  simp [HandleWorldChatCommand, hen, hsess, hp, hblank]

/-- The command on any other tail: one call of `SendWorldMessage` with what
the loop left. -/
theorem command_forward (cfg : WCConfig) (players : PlayerMap) (handler : ChatHandler)
    (sess : WorldSession) (s : Player) (tail : String)
    (hen : cfg.Enabled = true) (hsess : handler.GetSession = some sess)
    (hp : sess.GetPlayer = some s) (hne : trimLoop tail.data ≠ []) :
    HandleWorldChatCommand cfg players handler tail
      = (true, SendWorldMessage cfg players (some s) (String.mk (trimLoop tail.data))) := by
  have hemp : (trimLoop tail.data).isEmpty = false := by
    cases hl : trimLoop tail.data with
    | nil => exact absurd hl hne
    | cons c cs => rfl
  simp only [HandleWorldChatCommand, hen, hsess, hp, hemp, Bool.not_true,
    Bool.false_eq_true, if_false]

/-- C11: with an enabled config and a handler whose session resolves to a
player, a tail that is empty or whitespace only gets exactly one reply through
the handler, the usage string, and no broadcast (no delivery, no log write);
every other tail gets no usage reply. -/
theorem C11_usage_reply (cfg : WCConfig) (players : PlayerMap) (handler : ChatHandler)
    (sess : WorldSession) (s : Player) (tail : String)
    (hen : cfg.Enabled = true) (hsess : handler.GetSession = some sess)
    (hp : sess.GetPlayer = some s) :
    ((∀ c ∈ tail.data, isspace c = true) →
        (HandleWorldChatCommand cfg players handler tail).2
            = [Effect.PSendSysMessage handler "Usage: .chat <message>"]
        ∧ usageReplies (HandleWorldChatCommand cfg players handler tail).2
            = [(handler, "Usage: .chat <message>")]
        ∧ deliveries (HandleWorldChatCommand cfg players handler tail).2 = []
        ∧ logWrites (HandleWorldChatCommand cfg players handler tail).2 = [])
    ∧ (¬ (∀ c ∈ tail.data, isspace c = true) →
        usageReplies (HandleWorldChatCommand cfg players handler tail).2 = []) := by
  constructor
  · intro hall
    have hb := (trimLoop_eq_nil_iff tail.data).2 hall
    rw [command_blank cfg players handler sess s tail hen hsess hp hb]
    exact ⟨rfl, rfl, rfl, rfl⟩
  · intro hnot
    have hne : trimLoop tail.data ≠ [] := fun h => hnot ((trimLoop_eq_nil_iff tail.data).1 h)
    rw [command_forward cfg players handler sess s tail hen hsess hp hne]
    exact usageReplies_send cfg players (some s) _

/-- C11 on the tail of three spaces and on the tail `"hi"`. -/
theorem C11_usage_reply_witness :
    WC_Config.Enabled = true
    ∧ usageReplies (HandleWorldChatCommand WC_Config sampleDirectory aliceHandler "   ").2
        = [(aliceHandler, "Usage: .chat <message>")]
    ∧ logWrites (HandleWorldChatCommand WC_Config sampleDirectory aliceHandler "   ").2 = []
    ∧ usageReplies (HandleWorldChatCommand WC_Config sampleDirectory aliceHandler "hi").2 = [] :=
  ⟨rfl,
    ((C11_usage_reply WC_Config sampleDirectory aliceHandler ⟨101, some alice⟩ alice "   "
        rfl rfl rfl).1 (by decide)).2.1,
    ((C11_usage_reply WC_Config sampleDirectory aliceHandler ⟨101, some alice⟩ alice "   "
        rfl rfl rfl).1 (by decide)).2.2.2,
    (C11_usage_reply WC_Config sampleDirectory aliceHandler ⟨101, some alice⟩ alice "hi"
        rfl rfl rfl).2 (by decide)⟩

/-- C12: with an enabled config, a non-null player and a non-null channel, a
chat event with the addon language tag broadcasts nothing and leaves the
buffer as it is, whatever the channel; any other event is forwarded to
`SendWorldMessage`, and the buffer cleared, exactly when the configured label
is non-empty and `ToUpper` of the channel name equals `ToUpper` of the label;
when it is not forwarded nothing is called and the buffer is unchanged. -/
theorem C12_chat_event (cfg : WCConfig) (players : PlayerMap) (p : Player)
    (ty lang : Nat) (msg : String) (ch : Channel) (hen : cfg.Enabled = true) :
    (lang = LANG_ADDON →
        OnPlayerChat cfg players (some p) ty lang msg (some ch) = (msg, []))
    ∧ (lang ≠ LANG_ADDON →
        (cfg.ChannelName ≠ "" ∧ ToUpper ch.GetName = ToUpper cfg.ChannelName →
          OnPlayerChat cfg players (some p) ty lang msg (some ch)
            = ("", SendWorldMessage cfg players (some p) msg))
        ∧ (¬ (cfg.ChannelName ≠ "" ∧ ToUpper ch.GetName = ToUpper cfg.ChannelName) →
          OnPlayerChat cfg players (some p) ty lang msg (some ch) = (msg, []))) := by
  have hname : cfg.ChannelName.data.isEmpty = true ↔ cfg.ChannelName = "" := by
    constructor
    · intro h
      have h2 : cfg.ChannelName.data = [] := List.isEmpty_iff.1 h
      have h3 : cfg.ChannelName = String.mk cfg.ChannelName.data := rfl
      rw [h3, h2]
    · intro h
      rw [h]
      rfl
  refine ⟨?_, ?_⟩
  · intro hl
    simp [OnPlayerChat, hen, hl]
  · intro hl
    constructor
    · rintro ⟨hne, hup⟩
      have hemp : cfg.ChannelName.data.isEmpty = false := by
        cases h : cfg.ChannelName.data.isEmpty with
        | false => rfl
        | true => exact absurd (hname.1 h) hne
      simp only [OnPlayerChat, hen, hl, hemp, hup, Bool.not_true, Bool.false_eq_true,
        if_false, ne_eq, not_true_eq_false]
    · intro hnot
      cases h : cfg.ChannelName.data.isEmpty with
      | true =>
        simp only [OnPlayerChat, hen, hl, h, Bool.not_true, Bool.false_eq_true, if_false,
          if_true]
      | false =>
        have hne : cfg.ChannelName ≠ "" := by
          intro h2
          rw [hname.2 h2] at h
          cases h
        have hup : ToUpper ch.GetName ≠ ToUpper cfg.ChannelName :=
          fun h3 => hnot ⟨hne, h3⟩
        simp only [OnPlayerChat, hen, hl, h, hup, Bool.not_true, Bool.false_eq_true,
          if_false, ne_eq, not_false_eq_true, if_true]

/-- C12 on an addon message, on a message in the configured channel written
in another case, and on a message in another channel. -/
theorem C12_chat_event_witness :
    WC_Config.Enabled = true
    ∧ OnPlayerChat WC_Config sampleDirectory (some alice) 0 LANG_ADDON "data"
        (some ⟨"Global"⟩) = ("data", [])
    ∧ OnPlayerChat WC_Config sampleDirectory (some alice) 0 7 "hello" (some ⟨"gLoBaL"⟩)
        = ("", SendWorldMessage WC_Config sampleDirectory (some alice) "hello")
    ∧ OnPlayerChat WC_Config sampleDirectory (some alice) 0 7 "hello" (some ⟨"Trade"⟩)
        = ("hello", []) :=
  ⟨rfl,
    (C12_chat_event WC_Config sampleDirectory alice 0 LANG_ADDON "data" ⟨"Global"⟩ rfl).1 rfl,
    ((C12_chat_event WC_Config sampleDirectory alice 0 7 "hello" ⟨"gLoBaL"⟩ rfl).2
      (by decide)).1 (by decide),
    ((C12_chat_event WC_Config sampleDirectory alice 0 7 "hello" ⟨"Trade"⟩ rfl).2
      (by decide)).2 (by decide)⟩

/-- C16: whatever the config, `SameTeamOrCross` is false when either player
is null. -/
theorem C16_null_rejected (cfg : WCConfig) (pFrom pTo : Option Player)
    (h : pFrom = none ∨ pTo = none) :
    SameTeamOrCross cfg pFrom pTo = false := by
  rcases h with h | h
  · subst h; rfl
  · subst h
    cases pFrom <;> rfl

/-- C16 with cross-faction chat on and the recipient null, and with it off
and the sender null. -/
theorem C16_null_rejected_witness :
    WC_Config.CrossFactions = true
    ∧ SameTeamOrCross WC_Config (some alice) none = false
    ∧ sameFactionConfig.CrossFactions = false
    ∧ SameTeamOrCross sameFactionConfig none (some alice) = false :=
  ⟨rfl, C16_null_rejected WC_Config (some alice) none (Or.inr rfl),
    rfl, C16_null_rejected sameFactionConfig none (some alice) (Or.inl rfl)⟩

/-- C20: the command returns true in every case.  Its loop leaves the tail
less a prefix of whitespace characters, and what is left does not start with
whitespace, so the prefix is the longest one.  With an enabled config and a
resolved sender, a non-empty rest is handed to `SendWorldMessage` once, as it
is, inner and trailing whitespace included, and no usage reply is made. -/
theorem C20_left_trim (cfg : WCConfig) (players : PlayerMap) (handler : ChatHandler)
    (tail : String) :
    (HandleWorldChatCommand cfg players handler tail).1 = true
    ∧ (∃ ws, tail.data = ws ++ trimLoop tail.data ∧ ∀ c ∈ ws, isspace c = true)
    ∧ (∀ c rest, trimLoop tail.data = c :: rest → isspace c = false)
    ∧ (∀ (sess : WorldSession) (s : Player), cfg.Enabled = true →
        handler.GetSession = some sess → sess.GetPlayer = some s →
        trimLoop tail.data ≠ [] →
        (HandleWorldChatCommand cfg players handler tail).2
            = SendWorldMessage cfg players (some s) (String.mk (trimLoop tail.data))
        ∧ usageReplies (HandleWorldChatCommand cfg players handler tail).2 = []) := by
  refine ⟨?_, ?_, ?_, ?_⟩
  · cases hen : cfg.Enabled with
    | false => simp [HandleWorldChatCommand, hen]
    | true =>
      cases hsess : handler.GetSession with
      | none => simp [HandleWorldChatCommand, hen, hsess]
      | some sess =>
        cases hp : sess.GetPlayer with
        | none => simp [HandleWorldChatCommand, hen, hsess, hp]
        | some s =>
          by_cases hb : trimLoop tail.data = []
          · rw [command_blank cfg players handler sess s tail hen hsess hp hb]
          · rw [command_forward cfg players handler sess s tail hen hsess hp hb]
  · refine ⟨tail.data.takeWhile isspace, ?_, ?_⟩
    · rw [trimLoop_eq_dropWhile, List.takeWhile_append_dropWhile]
    · intro c hc
      exact (List.mem_takeWhile_imp hc)
  · intro c rest h
    rw [trimLoop_eq_dropWhile] at h
    have hh := List.head_dropWhile_not isspace tail.data (by rw [h]; exact List.cons_ne_nil _ _)
    simp only [h, List.head_cons] at hh
    simpa using hh
  · intro sess s hen hsess hp hne
    rw [command_forward cfg players handler sess s tail hen hsess hp hne]
    exact ⟨rfl, usageReplies_send cfg players (some s) _⟩

/-- C20 on the tail `"  hi  "`, broadcast as `"hi  "`. -/
theorem C20_left_trim_witness :
    WC_Config.Enabled = true
    ∧ String.mk (trimLoop "  hi  ".data) = "hi  "
    ∧ (HandleWorldChatCommand WC_Config sampleDirectory aliceHandler "  hi  ").2
        = SendWorldMessage WC_Config sampleDirectory (some alice) "hi  " :=
  ⟨rfl, by decide,
    ((C20_left_trim WC_Config sampleDirectory aliceHandler "  hi  ").2.2.2
      ⟨101, some alice⟩ alice rfl rfl rfl (by decide)).1⟩

/-! ## The sender's own copy and the two renderings -/

theorem count_recipients (cfg : WCConfig) (s r : Player) (players : PlayerMap) :
    (recipients cfg s players).count r
      = if (r.IsInWorld && SameTeamOrCross cfg (some s) (some r)) = true
        then (players.filterMap Prod.snd).count r else 0 := by
  induction players with
  | nil => simp [recipients]
  | cons pair rest ih =>
    obtain ⟨g, q⟩ := pair
    simp only [recipients] at ih
    cases q with
    | none => simpa [recipients, eligible, List.filter_cons] using ih
    | some recv =>
      by_cases hq : recv = r
      · subst hq
        by_cases he : (recv.IsInWorld && SameTeamOrCross cfg (some s) (some recv)) = true
        · simp only [he, if_true] at ih
          simp [recipients, eligible, List.filter_cons, he, List.filterMap_cons,
            List.count_cons, ih]
        · simp only [he, if_false] at ih
          simp [recipients, eligible, List.filter_cons, he, ih]
      · by_cases he : (recv.IsInWorld && SameTeamOrCross cfg (some s) (some recv)) = true
        · simp [recipients, eligible, List.filter_cons, he, List.filterMap_cons,
            List.count_cons, hq, ih]
        · simp [recipients, eligible, List.filter_cons, he, List.filterMap_cons,
            List.count_cons, hq, ih]

theorem countP_fst_map (s : Player) (line : String) (l : List Player) :
    (l.map fun r => (r, line)).countP (fun d => decide (d.1 = s)) = l.count s := by
  induction l with
  | nil => rfl
  | cons a rest ih =>
    by_cases h : a = s
    · simp [List.countP_cons, List.count_cons, h, ih]
    · simp [List.countP_cons, List.count_cons, h, ih]

/-- C14: with an enabled config and a sender that has a session and stands
once in the directory snapshot, the sender passes its own filter under either
setting of `CrossFactions`, so it receives its own broadcast exactly once when
it is in world and not at all when it is not; and the copy is the display
line that every recipient receives. -/
theorem C14_sender_included (cfg : WCConfig) (players : PlayerMap) (s : Player)
    (text : String) (hen : cfg.Enabled = true) (hs : s.GetSession ≠ none)
    (hone : (players.filterMap Prod.snd).count s = 1) :
    SameTeamOrCross cfg (some s) (some s) = true
    ∧ (deliveries (SendWorldMessage cfg players (some s) text)).countP
          (fun d => decide (d.1 = s))
        = (if s.IsInWorld = true then 1 else 0)
    ∧ (s.IsInWorld = true →
        (deliveries (SendWorldMessage cfg players (some s) text)).count
          (s, coloredLine cfg s text) = 1)
    ∧ ∀ d ∈ deliveries (SendWorldMessage cfg players (some s) text),
        d.2 = coloredLine cfg s text := by
  have hself : SameTeamOrCross cfg (some s) (some s) = true := by
    cases hc : cfg.CrossFactions <;> simp [SameTeamOrCross, hc]
  have hdel := deliveries_send cfg players s text hen hs
  have hcnt : (deliveries (SendWorldMessage cfg players (some s) text)).countP
      (fun d => decide (d.1 = s)) = (if s.IsInWorld = true then 1 else 0) := by
    rw [hdel, countP_fst_map, count_recipients, hone, hself, Bool.and_true]
  have hall : ∀ d ∈ deliveries (SendWorldMessage cfg players (some s) text),
      d.2 = coloredLine cfg s text := by
    intro d hd
    rw [hdel] at hd
    obtain ⟨r, _, rfl⟩ := List.mem_map.1 hd
    rfl
  refine ⟨hself, hcnt, ?_, hall⟩
  intro hw
  rw [if_pos hw] at hcnt
  rw [← hcnt, List.count, List.countP_eq_length_filter, List.countP_eq_length_filter]
  congr 1
  apply List.filter_congr
  intro d hd
  have h2 := hall d hd
  obtain ⟨a, b⟩ := d
  simp only at h2
  subst h2
  rw [Bool.eq_iff_iff]
  simp only [beq_iff_eq, Prod.mk.injEq, and_true, decide_eq_true_eq]

/-- C14 with faction separation: `alice` receives her own line once, and
`carol`, who is not in world, does not receive hers. -/
theorem C14_sender_included_witness :
    sameFactionConfig.Enabled = true ∧ alice.GetSession ≠ none
    ∧ (sampleDirectory.filterMap Prod.snd).count alice = 1
    ∧ (deliveries (SendWorldMessage sameFactionConfig sampleDirectory (some alice) "hi")).countP
          (fun d => decide (d.1 = alice)) = 1
    ∧ (deliveries (SendWorldMessage sameFactionConfig sampleDirectory (some carol) "hi")).countP
          (fun d => decide (d.1 = carol)) = 0 :=
  ⟨rfl, by decide, by decide,
    ((C14_sender_included sameFactionConfig sampleDirectory alice "hi" rfl (by decide)
      (by decide)).2.1).trans (by decide),
    ((C14_sender_included sameFactionConfig sampleDirectory carol "hi" rfl (by decide)
      (by decide)).2.1).trans (by decide)⟩

theorem pipe_not_mem_plainLine (cfg : WCConfig) (s : Player) (text : String)
    (hl : pipe ∉ cfg.ChannelName.data) (hn : pipe ∉ s.GetName.data)
    (ht : pipe ∉ text.data) : pipe ∉ (plainLine cfg s text).data := by
  have htag : pipe ∉ (FactionTagPlain s).data := by
    unfold FactionTagPlain
    split <;> decide
  have h1 : pipe ∉ "[".data := by decide
  have h2 : pipe ∉ "] ".data := by decide
  have h3 : pipe ∉ ": ".data := by decide
  simp only [plainLine, String.data_append, List.mem_append, not_or]
  exact ⟨⟨⟨⟨⟨⟨h1, hl⟩, h2⟩, htag⟩, hn⟩, h3⟩, ht⟩

/-- C15: the line `SendWorldMessage` delivers is, in this order, the label
tag, the affiliation tag, the class colour, the sender name, `"|r: "`, the
affiliation colour, the text and `"|r"`; the line it logs is the label in
brackets, `"[A] "` for the Alliance and `"[H] "` otherwise, the name, `": "`
and the text; the logged line has no `|` when label, name and text have
none. -/
theorem C15_rendering (cfg : WCConfig) (players : PlayerMap) (s : Player) (text : String)
    (hen : cfg.Enabled = true) (hs : s.GetSession ≠ none) :
    (∀ d ∈ deliveries (SendWorldMessage cfg players (some s) text),
        d.2 = "|cffffd000[" ++ cfg.ChannelName ++ "]|r " ++ FactionTag s ++ ClassColor s
                ++ s.GetName ++ "|r: " ++ FactionColor s ++ text ++ "|r")
    ∧ logWrites (SendWorldMessage cfg players (some s) text)
        = ["[" ++ cfg.ChannelName ++ "] "
            ++ (if s.GetTeamId = TEAM_ALLIANCE then "[A] " else "[H] ")
            ++ s.GetName ++ ": " ++ text]
    ∧ (FactionTag s = if s.GetTeamId = TEAM_ALLIANCE then "|cff3399FF[A]|r "
        else "|cffff0000[H]|r ")
    ∧ (FactionColor s = if s.GetTeamId = TEAM_ALLIANCE then "|cff3399FF" else "|cffff0000")
    ∧ (pipe ∉ cfg.ChannelName.data → pipe ∉ s.GetName.data → pipe ∉ text.data →
        ∀ l ∈ logWrites (SendWorldMessage cfg players (some s) text), pipe ∉ l.data) := by
  have hdel := deliveries_send cfg players s text hen hs
  have hlog := logWrites_send cfg players s text hen hs
  refine ⟨?_, ?_, rfl, rfl, ?_⟩
  · intro d hd
    rw [hdel] at hd
    obtain ⟨r, _, rfl⟩ := List.mem_map.1 hd
    rfl
  · rw [hlog]
    rfl
  · intro hl hn ht l hmem
    rw [hlog, List.mem_singleton] at hmem
    subst hmem
    exact pipe_not_mem_plainLine cfg s text hl hn ht

/-- C15 on a broadcast of `bob`, a Horde mage. -/
theorem C15_rendering_witness :
    WC_Config.Enabled = true ∧ bob.GetSession ≠ none
    ∧ logWrites (SendWorldMessage WC_Config sampleDirectory (some bob) "hello")
        = ["[Global] [H] Bob: hello"]
    ∧ (∀ d ∈ deliveries (SendWorldMessage WC_Config sampleDirectory (some bob) "hello"),
        d.2 = "|cffffd000[Global]|r |cffff0000[H]|r |cff69CCF0Bob|r: |cffff0000hello|r")
    ∧ (∀ l ∈ logWrites (SendWorldMessage WC_Config sampleDirectory (some bob) "hello"),
        pipe ∉ l.data) :=
  ⟨rfl, by decide,
    ((C15_rendering WC_Config sampleDirectory bob "hello" rfl (by decide)).2.1).trans
      (by decide),
    fun d hd =>
      ((C15_rendering WC_Config sampleDirectory bob "hello" rfl (by decide)).1 d hd).trans
        (by decide),
    (C15_rendering WC_Config sampleDirectory bob "hello" rfl (by decide)).2.2.2.2
      (by decide) (by decide) (by decide)⟩

/-! ## Logout, reachable timer maps, composition of ticks -/

theorem erase_of_absent (k : Nat) (m : TimerMap) (h : lookup k m = none) :
    erase k m = m := by
  induction m with
  | nil => rfl
  | cons e rest ih =>
    by_cases he : e.1 = k
    · simp [lookup, he] at h
    · simp only [lookup, he, if_false] at h
      simp only [erase, he, if_false, ih h]

theorem erase_eq_filter (k : Nat) (m : TimerMap) (hnd : (keys m).Nodup) :
    erase k m = m.filter (fun e => decide (e.1 ≠ k)) := by
  induction m with
  | nil => rfl
  | cons e rest ih =>
    simp only [keys, List.map_cons, List.nodup_cons] at hnd
    by_cases he : e.1 = k
    · have hall : ∀ x ∈ rest, decide (x.1 ≠ k) = true := by
        intro x hx
        have : x.1 ≠ k := fun hxk => hnd.1 (he ▸ hxk ▸ List.mem_map_of_mem Prod.fst hx)
        simpa using this
      simp only [erase, he, if_true, List.filter_cons, ne_eq, not_true_eq_false,
        decide_False, Bool.false_eq_true, if_false]
      exact (List.filter_eq_self.2 hall).symm
    · simp only [erase, he, if_false, List.filter_cons, ne_eq, not_false_eq_true,
        decide_True, if_true]
      rw [ih hnd.2]

theorem length_erase (k : Nat) (m : TimerMap) :
    (erase k m).length = if k ∈ keys m then m.length - 1 else m.length := by
  induction m with
  | nil => simp [erase, keys]
  | cons e rest ih =>
    by_cases he : e.1 = k
    · simp [erase, keys, he]
    · have h2 : ¬ k = e.1 := fun h => he h.symm
      simp only [keys] at ih
      by_cases hm : k ∈ List.map Prod.fst rest
      · have hpos : 0 < rest.length := by
          cases rest with
          | nil => simp at hm
          | cons _ _ => simp
        simp only [hm, if_true] at ih
        simp only [erase, he, if_false, keys, List.map_cons, List.mem_cons, h2, hm,
          or_true, if_true, List.length_cons, ih]
        omega
      · simp only [hm, if_false] at ih
        simp [erase, he, keys, h2, hm, ih]

/-- C13: on a timer map with one entry per key, `OnLogout(P)` leaves `P`
without an entry and every other entry as it was, in place, and makes no call;
the map shrinks by one entry if `P` had one and is returned unchanged if `P`
had none; so a second `OnLogout(P)` changes nothing. -/
theorem C13_logout_idempotent (M : TimerMap) (P : Player) (hnd : (keys M).Nodup) :
    lookup P.GetGUID (OnLogout (some P) M) = none
    ∧ (∀ k, k ≠ P.GetGUID → lookup k (OnLogout (some P) M) = lookup k M)
    ∧ OnLogout (some P) M = M.filter (fun e => decide (e.1 ≠ P.GetGUID))
    ∧ (OnLogout (some P) M).length
        = (if P.GetGUID ∈ keys M then M.length - 1 else M.length)
    ∧ (step M (Event.logout (some P))).2 = []
    ∧ (lookup P.GetGUID M = none → OnLogout (some P) M = M)
    ∧ OnLogout (some P) (OnLogout (some P) M) = OnLogout (some P) M := by
  refine ⟨lookup_erase_self _ _ hnd, fun k hk => lookup_erase_ne _ _ _ hk,
    erase_eq_filter _ _ hnd, length_erase _ _, rfl, fun h => erase_of_absent _ _ h, ?_⟩
  exact erase_of_absent _ _ (lookup_erase_self _ _ hnd)

/-- C13 on a map with an entry for `alice` and on one without. -/
theorem C13_logout_idempotent_witness :
    (keys [(2, 7), (1, 4000), (3, 50)]).Nodup
    ∧ OnLogout (some alice) [(2, 7), (1, 4000), (3, 50)] = [(2, 7), (3, 50)]
    ∧ OnLogout (some alice) (OnLogout (some alice) [(2, 7), (1, 4000), (3, 50)])
        = OnLogout (some alice) [(2, 7), (1, 4000), (3, 50)]
    ∧ OnLogout (some alice) [(2, 7), (3, 50)] = [(2, 7), (3, 50)] :=
  ⟨by decide, by decide,
    (C13_logout_idempotent [(2, 7), (1, 4000), (3, 50)] alice (by decide)).2.2.2.2.2.2,
    (C13_logout_idempotent [(2, 7), (3, 50)] alice (by decide)).2.2.2.2.2.1 (by decide)⟩

theorem mem_assign (k v : Nat) (m : TimerMap) (e : ObjectGuid × Nat)
    (h : e ∈ assign k v m) : e = (k, v) ∨ e ∈ m := by
  induction m with
  | nil =>
    simp only [assign, List.mem_singleton] at h
    exact Or.inl h
  | cons x rest ih =>
    by_cases hx : x.1 = k
    · simp only [assign, hx, if_true, List.mem_cons] at h
      rcases h with h | h
      · exact Or.inl h
      · exact Or.inr (List.mem_cons_of_mem _ h)
    · simp only [assign, hx, if_false, List.mem_cons] at h
      rcases h with h | h
      · exact Or.inr (h ▸ List.mem_cons_self _ _)
      · rcases ih h with h2 | h2
        · exact Or.inl h2
        · exact Or.inr (List.mem_cons_of_mem _ h2)

theorem mem_erase (k : Nat) (m : TimerMap) (e : ObjectGuid × Nat)
    (h : e ∈ erase k m) : e ∈ m := by
  induction m with
  | nil => exact h
  | cons x rest ih =>
    by_cases hx : x.1 = k
    · simp only [erase, hx, if_true] at h
      exact List.mem_cons_of_mem _ h
    · simp only [erase, hx, if_false, List.mem_cons] at h
      rcases h with h | h
      · exact h ▸ List.mem_cons_self _ _
      · exact List.mem_cons_of_mem _ (ih h)

theorem bounded_lt (m : TimerMap) (h : Bounded m) : ∀ e ∈ m, e.2 < U32 := by
  intro e he
  have h1 := (h e he).2
  have h2 : ANNOUNCE_DELAY < U32 := by decide
  omega

theorem bounded_step (m : TimerMap) (ev : Event) (h : Bounded m) :
    Bounded (step m ev).1 := by
  cases ev with
  | login p =>
    cases p with
    | none => exact h
    | some q =>
      intro e he
      rcases mem_assign _ _ _ e he with h1 | h1
      · subst h1
        exact ⟨Nat.succ_le_of_lt (Nat.zero_lt_succ 9999), Nat.le_refl _⟩
      · exact h e h1
  | logout p =>
    cases p with
    | none => exact h
    | some q => exact fun e he => h e (mem_erase _ _ e he)
  | update f d =>
    intro e he
    simp only [step, OnUpdate_eq_updateLoop, updateLoop_fst_eq f d m (bounded_lt m h),
      List.mem_map, List.mem_filter, decide_eq_true_eq] at he
    obtain ⟨x, ⟨hx, hd⟩, rfl⟩ := he
    have hb := h x hx
    simp only
    omega

theorem bounded_run (m : TimerMap) (evs : List Event) (h : Bounded m) :
    Bounded (run m evs).1 := by
  induction evs generalizing m with
  | nil => exact h
  | cons ev rest ih => exact ih _ (bounded_step m ev h)

theorem reachable_bounded (m : TimerMap) (h : Reachable m) : Bounded m := by
  obtain ⟨evs, rfl⟩ := h
  exact bounded_run [] evs (fun e he => absurd he (List.not_mem_nil e))

/-- C17: in every timer map reached from the empty one, every remaining value
lies between 1 and 10000.  So the unsigned subtraction of `OnUpdate` is only
run with a subtrahend below the value and gives the true difference, and
`OnUpdate(0)` keeps the map as it is and makes no call. -/
theorem C17_remaining_bounds (m : TimerMap) (h : Reachable m) :
    (∀ e ∈ m, 1 ≤ e.2 ∧ e.2 ≤ 10000)
    ∧ (∀ (d : Nat), ∀ e ∈ m, ¬ e.2 ≤ d →
        d < e.2 ∧ e.2 + U32 - d < 2 * U32 ∧ U32 ≤ e.2 + U32 - d
          ∧ (e.2 + U32 - d) % U32 = e.2 - d)
    ∧ (∀ (f : ObjectGuid → Option Player) (d : Nat),
        (OnUpdate f d m).1
          = (m.filter fun e => decide (d < e.2)).map fun e => (e.1, e.2 - d))
    ∧ ∀ f : ObjectGuid → Option Player, OnUpdate f 0 m = (m, []) := by
  have hb := reachable_bounded m h
  have hlt := bounded_lt m hb
  refine ⟨hb, ?_, ?_, ?_⟩
  · intro d e he hd
    have h1 := hlt e he
    refine ⟨by omega, by omega, by omega, u32_sub_exact e.2 d h1 hd⟩
  · intro f d
    rw [OnUpdate_eq_updateLoop]
    exact updateLoop_fst_eq f d m hlt
  · intro f
    rw [OnUpdate_eq_updateLoop]
    have h1 := updateLoop_fst_eq f 0 m hlt
    have h2 := updateLoop_snd_eq f 0 m
    have hf1 : (m.filter fun e => decide (0 < e.2)) = m := by
      rw [List.filter_eq_self]
      intro e he
      have := (hb e he).1
      simp only [decide_eq_true_eq]
      omega
    have hf2 : (m.filter fun e => decide (e.2 ≤ 0)) = [] := by
      rw [List.filter_eq_nil_iff]
      intro e he
      have := (hb e he).1
      simp only [decide_eq_true_eq]
      omega
    rw [hf1] at h1
    rw [hf2] at h2
    have h3 : (m.map fun e => (e.1, e.2 - 0)) = m := by
      simp
    rw [h3] at h1
    exact Prod.ext h1 h2

/-- C17 on the map reached by a login of `alice` and a tick of 3000. -/
theorem C17_remaining_bounds_witness :
    Reachable [(1, 7000)]
    ∧ (∀ e ∈ ([(1, 7000)] : TimerMap), 1 ≤ e.2 ∧ e.2 ≤ 10000)
    ∧ OnUpdate sampleFind 0 [(1, 7000)] = ([(1, 7000)], []) :=
  ⟨⟨[Event.login (some alice), Event.update sampleFind 3000], by decide⟩,
    (C17_remaining_bounds [(1, 7000)]
      ⟨[Event.login (some alice), Event.update sampleFind 3000], by decide⟩).1,
    (C17_remaining_bounds [(1, 7000)]
      ⟨[Event.login (some alice), Event.update sampleFind 3000], by decide⟩).2.2.2 sampleFind⟩

theorem updateLoop_fire_fst (f : ObjectGuid → Option Player) (d a b : Nat)
    (rest : TimerMap) (h : b ≤ d) :
    (updateLoop f d ((a, b) :: rest)).1 = (updateLoop f d rest).1 := by
  cases hf : f a with
  | none => rw [updateLoop_fire_none f d a b rest h hf]
  | some p => rw [updateLoop_fire_some f d a b rest p h hf]

/-- Two ticks leave the map of one tick of the sum. -/
theorem updateLoop_compose_fst (f : ObjectGuid → Option Player) (a b : Nat) (m : TimerMap)
    (hv : ∀ e ∈ m, e.2 < U32) :
    (updateLoop f b (updateLoop f a m).1).1 = (updateLoop f (a + b) m).1 := by
  induction m with
  | nil => rfl
  | cons e rest ih =>
    obtain ⟨k, v⟩ := e
    have ih2 := ih fun x hx => hv x (List.mem_cons_of_mem _ hx)
    have hvk : v < U32 := hv (k, v) (List.mem_cons_self _ _)
    by_cases h1 : v ≤ a
    · have h2 : v ≤ a + b := by omega
      rw [updateLoop_fire_fst f a k v rest h1, updateLoop_fire_fst f (a + b) k v rest h2, ih2]
    · rw [updateLoop_keep f a k v rest h1, u32_sub_exact v a hvk h1]
      by_cases h3 : v - a ≤ b
      · have h2 : v ≤ a + b := by omega
        rw [updateLoop_fire_fst f b k (v - a) _ h3,
          updateLoop_fire_fst f (a + b) k v rest h2, ih2]
      · have h2 : ¬ v ≤ a + b := by omega
        rw [updateLoop_keep f b k (v - a) _ h3, updateLoop_keep f (a + b) k v rest h2,
          u32_sub_exact (v - a) b (by omega) h3, u32_sub_exact v (a + b) hvk h2, ih2]
        have h4 : v - a - b = v - (a + b) := by omega
        rw [h4]

/-- Two ticks make the calls of one tick of the sum, up to order. -/
theorem updateLoop_compose_snd (f : ObjectGuid → Option Player) (a b : Nat) (m : TimerMap)
    (hv : ∀ e ∈ m, e.2 < U32) :
    ((updateLoop f a m).2 ++ (updateLoop f b (updateLoop f a m).1).2).Perm
      (updateLoop f (a + b) m).2 := by
  induction m with
  | nil => exact List.Perm.refl _
  | cons e rest ih =>
    obtain ⟨k, v⟩ := e
    have ih2 := ih fun x hx => hv x (List.mem_cons_of_mem _ hx)
    have hvk : v < U32 := hv (k, v) (List.mem_cons_self _ _)
    by_cases h1 : v ≤ a
    · have h2 : v ≤ a + b := by omega
      cases hf : f k with
      | none =>
        rw [updateLoop_fire_none f a k v rest h1 hf,
          updateLoop_fire_none f (a + b) k v rest h2 hf]
        exact ih2
      | some p =>
        rw [updateLoop_fire_some f a k v rest p h1 hf,
          updateLoop_fire_some f (a + b) k v rest p h2 hf]
        exact List.Perm.cons _ ih2
    · rw [updateLoop_keep f a k v rest h1, u32_sub_exact v a hvk h1]
      by_cases h3 : v - a ≤ b
      · have h2 : v ≤ a + b := by omega
        cases hf : f k with
        | none =>
          rw [updateLoop_fire_none f b k (v - a) _ h3 hf,
            updateLoop_fire_none f (a + b) k v rest h2 hf]
          exact ih2
        | some p =>
          rw [updateLoop_fire_some f b k (v - a) _ p h3 hf,
            updateLoop_fire_some f (a + b) k v rest p h2 hf]
          exact List.perm_middle.trans (List.Perm.cons _ ih2)
      · have h2 : ¬ v ≤ a + b := by omega
        rw [updateLoop_keep f b k (v - a) _ h3, updateLoop_keep f (a + b) k v rest h2]
        exact ih2

/-- C18: on a well-formed timer map and with one directory for both calls,
`OnUpdate(a)` followed by `OnUpdate(b)` leaves the timer map of the single call
`OnUpdate(a + b)`, the sum taken in `uint32` without overflow, and makes the
same calls up to order; so every identity gets the same number of reminders
either way, and that number is at most one. -/
theorem C18_ticks_compose (f : ObjectGuid → Option Player) (a b : Nat) (M : TimerMap)
    (hf : FindsByGuid f) (hwf : WellFormed M) (hab : a + b < U32) :
    (OnUpdate f b (OnUpdate f a M).1).1 = (OnUpdate f (u32add a b) M).1
    ∧ ((OnUpdate f a M).2 ++ (OnUpdate f b (OnUpdate f a M).1).2).Perm
        (OnUpdate f (u32add a b) M).2
    ∧ ∀ k, notifiedCount k ((OnUpdate f a M).2 ++ (OnUpdate f b (OnUpdate f a M).1).2)
            = notifiedCount k (OnUpdate f (u32add a b) M).2
        ∧ notifiedCount k (OnUpdate f (u32add a b) M).2 ≤ 1 := by
  have hsum : u32add a b = a + b := Nat.mod_eq_of_lt hab
  simp only [OnUpdate_eq_updateLoop, hsum]
  have hperm := updateLoop_compose_snd f a b M hwf.2
  refine ⟨updateLoop_compose_fst f a b M hwf.2, hperm, ?_⟩
  intro k
  constructor
  · exact hperm.countP_eq _
  · rw [notifiedCount_updateLoop f (a + b) k M hf hwf.1]
    cases lookup k M with
    | none => exact Nat.zero_le _
    | some v =>
      simp only
      split <;> omega

/-- C18 on a map where one entry fires in the first tick, one in the second
and one in neither. -/
theorem C18_ticks_compose_witness :
    FindsByGuid sampleFind ∧ WellFormed [(2, 900), (1, 400), (3, 5000)]
    ∧ 400 + 600 < U32
    ∧ (OnUpdate sampleFind 600 (OnUpdate sampleFind 400 [(2, 900), (1, 400), (3, 5000)]).1).1
        = [(3, 4000)]
    ∧ (OnUpdate sampleFind (u32add 400 600) [(2, 900), (1, 400), (3, 5000)]).1 = [(3, 4000)]
    ∧ ((OnUpdate sampleFind 400 [(2, 900), (1, 400), (3, 5000)]).2
        ++ (OnUpdate sampleFind 600
              (OnUpdate sampleFind 400 [(2, 900), (1, 400), (3, 5000)]).1).2).Perm
        (OnUpdate sampleFind (u32add 400 600) [(2, 900), (1, 400), (3, 5000)]).2 :=
  ⟨sampleFind_ok, by decide, by decide, by decide, by decide,
    (C18_ticks_compose sampleFind 400 600 [(2, 900), (1, 400), (3, 5000)] sampleFind_ok
      (by decide) (by decide)).2.1⟩

theorem moduleRun_eq_run (s : ModuleState) (evs : List HostEvent) :
    (moduleRun s evs).1.timers = (run s.timers (timerEvents evs)).1
    ∧ (moduleRun s evs).2 = (run s.timers (timerEvents evs)).2 := by
  induction evs generalizing s with
  | nil => exact ⟨rfl, rfl⟩
  | cons ev rest ih =>
    cases ev with
    | timer e =>
      have h := ih (moduleStep s (HostEvent.timer e)).1
      simp only [moduleRun, timerEvents, run]
      exact ⟨h.1, by rw [h.2]; rfl⟩
    | configLoad en name cross ann =>
      have h := ih (moduleStep s (HostEvent.configLoad en name cross ann)).1
      simp only [moduleRun, timerEvents]
      exact ⟨h.1, by rw [h.2]; rfl⟩

/-- C19: the timer map and the calls of a run of the module depend on the
timer events only: two runs of the same host events from the same timer map
and any two configs end with the same timer map and make the same calls, those
of the timer events alone.  So under a config with `Announce` and `Enabled`
both false a login is armed with 10000 ms, and the next update sends the
reminder to a player the directory finds exactly when 10000 ms have elapsed. -/
theorem C19_config_independent (c1 c2 : WCConfig) (M : TimerMap) (evs : List HostEvent) :
    (moduleRun ⟨c1, M⟩ evs).1.timers = (moduleRun ⟨c2, M⟩ evs).1.timers
    ∧ (moduleRun ⟨c1, M⟩ evs).2 = (moduleRun ⟨c2, M⟩ evs).2
    ∧ (moduleRun ⟨c1, M⟩ evs).1.timers = (run M (timerEvents evs)).1
    ∧ (moduleRun ⟨c1, M⟩ evs).2 = (run M (timerEvents evs)).2
    ∧ ∀ (P : Player) (f : ObjectGuid → Option Player) (d : Nat),
        c1.Announce = false → c1.Enabled = false →
        (keys M).Nodup → FindsByGuid f → (f P.GetGUID).isSome = true →
        lookup P.GetGUID
            (moduleRun ⟨c1, M⟩ [HostEvent.timer (Event.login (some P))]).1.timers
          = some 10000
        ∧ notifiedCount P.GetGUID
            (moduleRun ⟨c1, M⟩ [HostEvent.timer (Event.login (some P)),
              HostEvent.timer (Event.update f d)]).2
          = if 10000 ≤ d then 1 else 0 := by
  have h1 := moduleRun_eq_run ⟨c1, M⟩ evs
  have h2 := moduleRun_eq_run ⟨c2, M⟩ evs
  refine ⟨h1.1.trans h2.1.symm, h1.2.trans h2.2.symm, h1.1, h1.2, ?_⟩
  intro P f d _ _ hnd hf hfind
  have hnd0 : (keys (OnLogin (some P) M)).Nodup := nodup_keys_assign _ _ _ hnd
  have hg0 : lookup P.GetGUID (OnLogin (some P) M) = some 10000 := by
    simp [OnLogin, lookup_assign, ANNOUNCE_DELAY]
  constructor
  · exact hg0
  · have hr := run_armed P.GetGUID [Event.update f d] (OnLogin (some P) M) 10000 hnd0 hg0
      (by decide) (by decide)
      (by
        intro ev hev
        simp only [List.mem_singleton] at hev
        subst hev
        exact ⟨trivial, hf, hfind⟩)
    have hm := (moduleRun_eq_run ⟨c1, M⟩ [HostEvent.timer (Event.login (some P)),
      HostEvent.timer (Event.update f d)]).2
    rw [hm]
    simp only [timerEvents, run, step, List.nil_append, elapsed, Nat.add_zero,
      List.append_nil] at hr ⊢
    exact hr.2

/-- C19 under a config with `Announce` and `Enabled` both false: `alice` is
armed at login and reminded by an update of 10000 ms. -/
theorem C19_config_independent_witness :
    (⟨false, "Global", true, false⟩ : WCConfig).Announce = false
    ∧ (moduleRun ⟨⟨false, "Global", true, false⟩, []⟩
        [HostEvent.timer (Event.login (some alice))]).1.timers = [(1, 10000)]
    ∧ notifiedCount alice.GetGUID
        (moduleRun ⟨⟨false, "Global", true, false⟩, []⟩
          [HostEvent.timer (Event.login (some alice)),
            HostEvent.timer (Event.update sampleFind 10000)]).2 = 1 :=
  ⟨rfl, by decide,
    (((C19_config_independent ⟨false, "Global", true, false⟩ WC_Config []
        []).2.2.2.2 alice sampleFind 10000 rfl rfl (by decide) sampleFind_ok rfl).2).trans
      (by decide)⟩

end WorldChat
